import Mathlib

/-!
# Verification of the go-nix daemon protocol client

A shallow embedding of the protocol engine of the `pkg/daemon` package:
wire primitives, framed transport, the stderr dispatcher, the handshake,
the NAR copier, the codec's map serialisation, and the lock discipline of
the operation engine.  Byte streams are `List Nat` (each element one
byte); machine words are `Nat` reduced modulo `2 ^ 64` where the code
truncates.  Fallible parsing returns `Option` or `Except`.
-/

namespace GoNixDaemon

/-- Modelled from the spec: §3 "Word: unsigned 64-bit little-endian" and
§4.1 `write_word` (the `pkg/wire` package is referenced by the daemon
package but its source is not part of this tree).  Serialises `n % 2^64`
as 8 little-endian bytes. -/
def toLE64 (n : Nat) : List Nat :=
  [n % 256, n / 2 ^ 8 % 256, n / 2 ^ 16 % 256, n / 2 ^ 24 % 256,
   n / 2 ^ 32 % 256, n / 2 ^ 40 % 256, n / 2 ^ 48 % 256, n / 2 ^ 56 % 256]

/-- Little-endian recombination of 8 bytes into one word. -/
def fromLE64 (b0 b1 b2 b3 b4 b5 b6 b7 : Nat) : Nat :=
  b0 + b1 * 2 ^ 8 + b2 * 2 ^ 16 + b3 * 2 ^ 24 +
  b4 * 2 ^ 32 + b5 * 2 ^ 40 + b6 * 2 ^ 48 + b7 * 2 ^ 56

/-- Modelled from the spec: §4.1 `read_word` — consume 8 bytes, fail at
EOF mid-record. -/
def readU64 : List Nat → Option (Nat × List Nat)
  | b0 :: b1 :: b2 :: b3 :: b4 :: b5 :: b6 :: b7 :: rest =>
      some (fromLE64 b0 b1 b2 b3 b4 b5 b6 b7, rest)
  | _ => none

/-- `paddingLen` from `part_003` (also spec §3): zero padding to the next
8-byte boundary. -/
def paddingLen (contentLen : Nat) : Nat :=
  (8 - contentLen % 8) % 8

/-- Modelled from the spec: §4.1 `write_string` — length word, data,
correct zero padding. -/
def writeStr (s : List Nat) : List Nat :=
  toLE64 s.length ++ s ++ List.replicate (paddingLen s.length) 0

/-- Modelled from the spec: §4.1 `read_string(max)` — fails on oversize
length, on truncation, and on nonzero padding bytes. -/
def readStr (max : Nat) (input : List Nat) : Option (List Nat × List Nat) :=
  match readU64 input with
  | none => none
  | some (len, r1) =>
    if len > max then none
    else if r1.length < len then none
    else if (r1.drop len).length < paddingLen len then none
    else if ((r1.drop len).take (paddingLen len)).all (fun b => b = 0) then
      some (r1.take len, (r1.drop len).drop (paddingLen len))
    else none

/-- Modelled from the spec: §4.1 `read_bool` — word `0` is false, any
nonzero word is true. -/
def readBool (input : List Nat) : Option (Bool × List Nat) :=
  match readU64 input with
  | none => none
  | some (v, rest) => some (decide (v ≠ 0), rest)

/-- Modelled from the spec: §4.1 `write_bool`. -/
def writeBool (b : Bool) : List Nat :=
  toLE64 (if b then 1 else 0)

/-- ASCII byte list of a Lean string literal, used for the protocol's
token and string constants. -/
def asc (s : String) : List Nat :=
  s.data.map Char.toNat

theorem readU64_toLE64 (n : Nat) (rest : List Nat) :
    readU64 (toLE64 n ++ rest) = some (n % 2 ^ 64, rest) := by
  simp only [toLE64, List.cons_append, List.nil_append, readU64, fromLE64,
    Option.some.injEq, Prod.mk.injEq]
  exact ⟨by omega, trivial⟩

theorem toLE64_length (n : Nat) : (toLE64 n).length = 8 := by
  rfl

theorem readU64_toLE64_lt {n : Nat} (h : n < 2 ^ 64) (rest : List Nat) :
    readU64 (toLE64 n ++ rest) = some (n, rest) := by
  rw [readU64_toLE64, Nat.mod_eq_of_lt h]

theorem take_append_self (l r : List Nat) : (l ++ r).take l.length = l := by
  simp

theorem drop_append_self (l r : List Nat) : (l ++ r).drop l.length = r := by
  simp

theorem readStr_writeStr {s : List Nat} {max : Nat}
    (hmax : s.length ≤ max) (hlen : s.length < 2 ^ 64) (rest : List Nat) :
    readStr max (writeStr s ++ rest) = some (s, rest) := by
  unfold readStr writeStr
  rw [List.append_assoc, List.append_assoc, readU64_toLE64_lt hlen]
  have hdrop : (s ++ (List.replicate (paddingLen s.length) 0 ++ rest)).drop s.length
      = List.replicate (paddingLen s.length) 0 ++ rest := drop_append_self _ _
  have htake : (s ++ (List.replicate (paddingLen s.length) 0 ++ rest)).take s.length = s :=
    take_append_self _ _
  have hptake : (List.replicate (paddingLen s.length) (0 : Nat) ++ rest).take (paddingLen s.length)
      = List.replicate (paddingLen s.length) 0 := by
    simp
  have hpdrop : (List.replicate (paddingLen s.length) (0 : Nat) ++ rest).drop (paddingLen s.length)
      = rest := by
    simp
  dsimp only
  rw [hdrop, hptake, hpdrop, htake]
  rw [if_neg (show ¬ s.length > max by omega),
    if_neg (by simp only [List.length_append]; omega),
    if_neg (by simp only [List.length_append, List.length_replicate]; omega),
    if_pos (by simp [List.all_eq_true, List.mem_replicate])]

/-! ## Framed transport (`FramedReader` / `FramedWriter`, `part_003`) -/

/-- `defaultFrameSize` from `part_003`: the flush threshold (and the
capacity of the writer's buffer). -/
def defaultFrameSize : Nat := 32 * 1024

/-- One frame on the wire: length word, data, zero padding to 8 bytes.
This is the byte sequence emitted by `FramedWriter.flush` for buffer
contents `d`. -/
def frame (d : List Nat) : List Nat :=
  toLE64 d.length ++ d ++ List.replicate (paddingLen d.length) 0

/-- `skipPadding` from `part_003`: consume the padding of a frame of
length `contentLen`, failing on a nonzero padding byte or truncation. -/
def skipPadding (contentLen : Nat) (s : List Nat) : Option (List Nat) :=
  if s.length < paddingLen contentLen then none
  else if (s.take (paddingLen contentLen)).all (fun b => b = 0) then
    some (s.drop (paddingLen contentLen))
  else none

/-- The `FramedReader` read-to-EOF loop (`Read`/`nextFrame` from
`part_003`): repeatedly read a length word; `0` terminates; otherwise
surface that many data bytes, then (before the next header) skip the
frame's padding.  Returns the concatenated frame data and the bytes
following the terminator frame.  `fuel` bounds the number of frames; the
`framedReadAll` wrapper supplies enough fuel for any input. -/
def framedReadAllF : Nat → List Nat → Option (List Nat × List Nat)
  | 0, _ => none
  | fuel + 1, input =>
    match readU64 input with
    | none => none
    | some (len, r1) =>
      if len = 0 then some ([], r1)
      else if r1.length < len then none
      else
        match skipPadding len (r1.drop len) with
        | none => none
        | some r2 =>
          match framedReadAllF fuel r2 with
          | none => none
          | some (data, rest) => some (r1.take len ++ data, rest)

/-- Read a complete framed stream to EOF.  Each frame consumes at least
8 bytes, so `input.length + 1` units of fuel always suffice. -/
def framedReadAll (input : List Nat) : Option (List Nat × List Nat) :=
  framedReadAllF (input.length + 1) input

/-- State of a `FramedWriter` (`part_003`): the pending buffer and the
closed flag.  The underlying writer is modelled by returning the emitted
bytes alongside the new state. -/
structure FramedWriterSt where
  buf : List Nat
  closed : Bool
deriving DecidableEq, Repr

/-- A fresh `FramedWriter` (`NewFramedWriter`). -/
def newFramedWriter : FramedWriterSt :=
  { buf := [], closed := false }

/-- The loop body of `FramedWriter.Write` from `part_003`: append to the
buffer up to the capacity `defaultFrameSize`, flushing a full frame
whenever the buffer fills.  Returns the final buffer and the emitted wire
bytes.  The `space = 0` branch is unreachable from reachable states (the
Go code flushes exactly when the buffer reaches capacity, so the buffer
is always below capacity at loop entry); it exists to make the recursion
total. -/
def fwWriteLoop (buf p : List Nat) : List Nat × List Nat :=
  if hp : p = [] then (buf, [])
  else
    let space := defaultFrameSize - buf.length
    if hs : space = 0 then (buf, [])
    else
      let buf2 := buf ++ p.take space
      let p2 := p.drop space
      if buf2.length = defaultFrameSize then
        let r := fwWriteLoop [] p2
        (r.1, frame buf2 ++ r.2)
      else
        let r := fwWriteLoop buf2 p2
        (r.1, r.2)
termination_by p.length
decreasing_by
  all_goals
    simp only [List.length_drop]
    cases p with
    | nil => exact absurd rfl hp
    | cons a t => simp only [List.length_cons]; omega

/-- `FramedWriter.Write` from `part_003`: fails on a closed writer,
otherwise runs the buffering loop. -/
def fwWrite (s : FramedWriterSt) (p : List Nat) :
    Except String (FramedWriterSt × List Nat) :=
  if s.closed then .error "write to closed FramedWriter"
  else
    let r := fwWriteLoop s.buf p
    .ok ({ buf := r.1, closed := false }, r.2)

/-- `FramedWriter.Close` from `part_003`: on the first close, flush any
buffered data as one final frame and emit the zero-length terminator; on
an already-closed writer, emit nothing and succeed. -/
def fwClose (s : FramedWriterSt) : FramedWriterSt × List Nat :=
  if s.closed then (s, [])
  else ({ buf := [], closed := true },
    (if s.buf = [] then [] else frame s.buf) ++ toLE64 0)

/-- Write the whole payload `p` through a fresh `FramedWriter` and close
it; the bytes that reach the underlying writer. -/
def framedWire (p : List Nat) : List Nat :=
  let r := fwWriteLoop [] p
  r.2 ++ (fwClose { buf := r.1, closed := false }).2

theorem frame_length (d : List Nat) :
    (frame d).length = 8 + d.length + paddingLen d.length := by
  simp [frame, toLE64]
  omega

theorem framedReadAllF_frame {d : List Nat} (hd : d ≠ []) (hlen : d.length < 2 ^ 64)
    (fuel : Nat) (rest : List Nat) :
    framedReadAllF (fuel + 1) (frame d ++ rest) =
      (framedReadAllF fuel rest).map (fun r => (d ++ r.1, r.2)) := by
  have hne : d.length ≠ 0 := by
    cases d with
    | nil => exact absurd rfl hd
    | cons a t => simp
  conv_lhs => unfold framedReadAllF frame
  rw [List.append_assoc, List.append_assoc, readU64_toLE64_lt hlen]
  have hdrop : (d ++ (List.replicate (paddingLen d.length) 0 ++ rest)).drop d.length
      = List.replicate (paddingLen d.length) 0 ++ rest := drop_append_self _ _
  have htake : (d ++ (List.replicate (paddingLen d.length) 0 ++ rest)).take d.length = d :=
    take_append_self _ _
  dsimp only
  rw [if_neg hne, if_neg (by simp only [List.length_append]; omega), hdrop, htake]
  have hskip : skipPadding d.length (List.replicate (paddingLen d.length) 0 ++ rest)
      = some rest := by
    unfold skipPadding
    rw [if_neg (by simp only [List.length_append, List.length_replicate]; omega),
      if_pos (by simp [List.all_eq_true, List.mem_replicate])]
    simp
  rw [hskip]
  dsimp only
  cases framedReadAllF fuel rest with
  | none => rfl
  | some r => rfl

theorem framedReadAllF_term (fuel : Nat) (rest : List Nat) :
    framedReadAllF (fuel + 1) (toLE64 0 ++ rest) = some ([], rest) := by
  unfold framedReadAllF
  rw [readU64_toLE64_lt (by norm_num)]
  simp

theorem framedReadAllF_frames (ds : List (List Nat))
    (h : ∀ d ∈ ds, d ≠ [] ∧ d.length < 2 ^ 64) (rest : List Nat) :
    ∀ fuel, ds.length + 1 ≤ fuel →
      framedReadAllF fuel ((ds.map frame).flatten ++ (toLE64 0 ++ rest)) =
        some (ds.flatten, rest) := by
  induction ds with
  | nil =>
    intro fuel hf
    obtain ⟨f, rfl⟩ : ∃ f, fuel = f + 1 := ⟨fuel - 1, by omega⟩
    simpa using framedReadAllF_term f rest
  | cons d tl ih =>
    intro fuel hf
    obtain ⟨f, rfl⟩ : ∃ f, fuel = f + 1 := ⟨fuel - 1, by omega⟩
    have hd := h d (List.mem_cons_self d tl)
    simp only [List.map_cons, List.flatten_cons, List.append_assoc]
    rw [framedReadAllF_frame hd.1 hd.2 f _]
    rw [ih (fun x hx => h x (List.mem_cons_of_mem d hx)) f (by simp at hf; omega)]
    simp

theorem fwWriteLoop_spec :
    ∀ (n : Nat) (p buf : List Nat), p.length ≤ n → buf.length < defaultFrameSize →
      ∃ ds : List (List Nat),
        (fwWriteLoop buf p).2 = (ds.map frame).flatten
        ∧ ds.flatten ++ (fwWriteLoop buf p).1 = buf ++ p
        ∧ (∀ d ∈ ds, d.length = defaultFrameSize)
        ∧ (fwWriteLoop buf p).1.length < defaultFrameSize := by
  intro n
  induction n with
  | zero =>
    intro p buf hp hbuf
    have hpe : p = [] := List.length_eq_zero.mp (by omega)
    subst hpe
    rw [fwWriteLoop]
    exact ⟨[], by simp, by simp, by simp, by simpa using hbuf⟩
  | succ n ih =>
    intro p buf hp hbuf
    by_cases hpe : p = []
    · subst hpe
      rw [fwWriteLoop]
      exact ⟨[], by simp, by simp, by simp, by simpa using hbuf⟩
    · rw [fwWriteLoop]
      simp only [dif_neg hpe]
      have hs : ¬ (defaultFrameSize - buf.length = 0) := by omega
      rw [dif_neg hs]
      have hplen : 1 ≤ p.length := by
        cases p with
        | nil => exact absurd rfl hpe
        | cons a t => simp
      have hdlen : (p.drop (defaultFrameSize - buf.length)).length ≤ n := by
        simp only [List.length_drop]; omega
      by_cases hfull : (buf ++ p.take (defaultFrameSize - buf.length)).length = defaultFrameSize
      · simp only [if_pos hfull]
        obtain ⟨ds, h1, h2, h3, h4⟩ := ih (p.drop (defaultFrameSize - buf.length)) [] hdlen
          (by simp [defaultFrameSize])
        refine ⟨(buf ++ p.take (defaultFrameSize - buf.length)) :: ds, ?_, ?_, ?_, h4⟩
        · simp [h1]
        · simp only [List.flatten_cons, List.append_assoc]
          rw [h2]
          simp [List.take_append_drop]
        · intro d hdm
          rcases List.mem_cons.mp hdm with hdm | hdm
          · rw [hdm]; exact hfull
          · exact h3 d hdm
      · simp only [if_neg hfull]
        have hbuf2 : (buf ++ p.take (defaultFrameSize - buf.length)).length < defaultFrameSize := by
          simp only [List.length_append, List.length_take] at hfull ⊢
          omega
        obtain ⟨ds, h1, h2, h3, h4⟩ := ih (p.drop (defaultFrameSize - buf.length))
          (buf ++ p.take (defaultFrameSize - buf.length)) hdlen hbuf2
        refine ⟨ds, h1, ?_, h3, h4⟩
        rw [h2]
        simp [List.take_append_drop]

theorem length_le_frames_flatten (ds : List (List Nat)) :
    ds.length ≤ ((ds.map frame).flatten).length := by
  induction ds with
  | nil => simp
  | cons d tl ih =>
    simp only [List.map_cons, List.flatten_cons, List.length_append, List.length_cons]
    have := frame_length d
    omega

/-- **C2.** Framing round-trip (spec §8.3, `part_003`): writing any byte
payload `p` through a fresh `FramedWriter` and closing it produces a wire
stream consisting of zero or more nonzero-length frames (each a length
word, data, and zero padding to 8 bytes) followed by exactly one
zero-length terminator frame, whose frame data concatenates back to `p`;
and reading that stream through a `FramedReader` to EOF yields exactly
`p`, consuming the whole stream. -/
theorem framing_roundtrip (p : List Nat) :
    (∃ ds : List (List Nat),
      (∀ d ∈ ds, d ≠ [] ∧ d.length < 2 ^ 64)
      ∧ framedWire p = (ds.map frame).flatten ++ toLE64 0
      ∧ ds.flatten = p)
    ∧ framedReadAll (framedWire p) = some (p, []) := by
  obtain ⟨ds, h1, h2, h3, h4⟩ := fwWriteLoop_spec p.length p [] (le_refl _)
    (by simp [defaultFrameSize])
  have hframes : ∀ d ∈ ds, d ≠ [] ∧ d.length < 2 ^ 64 := by
    intro d hd
    have := h3 d hd
    constructor
    · intro he
      rw [he] at this
      simp [defaultFrameSize] at this
    · rw [this]; norm_num [defaultFrameSize]
  set buf1 := (fwWriteLoop [] p).1 with hbuf1
  have hwire : framedWire p =
      ((if buf1 = [] then ds else ds ++ [buf1]).map frame).flatten ++ toLE64 0 := by
    unfold framedWire fwClose
    by_cases hb : buf1 = []
    · simp only [← hbuf1, if_pos hb, h1]
      simp [hb]
    · simp only [← hbuf1, if_neg hb, h1]
      simp [hb]
  set ds' := if buf1 = [] then ds else ds ++ [buf1] with hds'
  have hframes' : ∀ d ∈ ds', d ≠ [] ∧ d.length < 2 ^ 64 := by
    intro d hd
    rw [hds'] at hd
    by_cases hb : buf1 = []
    · rw [if_pos hb] at hd; exact hframes d hd
    · rw [if_neg hb] at hd
      rcases List.mem_append.mp hd with hd | hd
      · exact hframes d hd
      · have : d = buf1 := by simpa using hd
        subst this
        exact ⟨hb, lt_trans h4 (by norm_num [defaultFrameSize])⟩
  have hflat : ds'.flatten = p := by
    rw [hds']
    by_cases hb : buf1 = []
    · rw [if_pos hb]
      have := h2
      rw [hb] at this
      simpa using this
    · rw [if_neg hb]
      have := h2
      simp only [List.flatten_append, List.flatten_cons, List.flatten_nil, List.append_nil]
      simpa using this
  refine ⟨⟨ds', hframes', hwire, hflat⟩, ?_⟩
  rw [hwire]
  unfold framedReadAll
  rw [← hflat]
  have hfuel : ds'.length + 1 ≤
      ((ds'.map frame).flatten ++ toLE64 0).length + 1 := by
    have := length_le_frames_flatten ds'
    simp only [List.length_append]
    omega
  have := framedReadAllF_frames ds' hframes' []
    (((ds'.map frame).flatten ++ toLE64 0).length + 1) hfuel
  simpa using this

/-- **C10.** `FramedWriter.Close` idempotence (`part_003`): the first
close on an open writer flushes the buffer as at most one final frame
plus exactly one zero-length terminator and marks the writer closed; any
close on an already-closed writer returns success and emits no bytes, and
any write after close fails, so no further terminator can ever be
emitted. -/
theorem framedWriter_close_idempotent (s : FramedWriterSt) (h : s.closed = false) :
    (fwClose s).2 = (if s.buf = [] then [] else frame s.buf) ++ toLE64 0
    ∧ (fwClose s).1.closed = true
    ∧ fwClose (fwClose s).1 = ((fwClose s).1, [])
    ∧ (∀ p, fwWrite (fwClose s).1 p = .error "write to closed FramedWriter") := by
  unfold fwClose fwWrite
  rw [h]
  simp

/-- Witness for C10 at a concrete open writer with buffered data. -/
theorem framedWriter_close_idempotent_witness :
    (fwClose ⟨[1, 2, 3], false⟩).2
      = (if ([1, 2, 3] : List Nat) = [] then [] else frame [1, 2, 3]) ++ toLE64 0
    ∧ (fwClose ⟨[1, 2, 3], false⟩).1.closed = true
    ∧ fwClose (fwClose ⟨[1, 2, 3], false⟩).1 = ((fwClose ⟨[1, 2, 3], false⟩).1, [])
    ∧ (∀ p, fwWrite (fwClose ⟨[1, 2, 3], false⟩).1 p
        = .error "write to closed FramedWriter") :=
  framedWriter_close_idempotent ⟨[1, 2, 3], false⟩ rfl

/-! ## Log messages and the stderr dispatcher (`types.go`, `client.go`) -/

/-- `MaxStringSize` from `client.go`: 64 MiB. -/
def MaxStringSize : Nat := 64 * 1024 * 1024

/-- Stderr tag words from `types.go`. -/
def LogLast : Nat := 0x616c7473
def LogError : Nat := 0x63787470
def LogNext : Nat := 0x6f6c6d67
def LogRead : Nat := 0x64617461
def LogWrite : Nat := 0x64617416
def LogStartActivity : Nat := 0x53545254
def LogStopActivity : Nat := 0x53544f50
def LogResult : Nat := 0x52534c54

/-- `LogField` from `types.go`: a typed field, either an integer or a
string (the Go struct carries an `IsInt` discriminant; the tagged variant
is the same data). -/
inductive LogField
  | int (v : Nat)
  | str (s : List Nat)
deriving DecidableEq, Repr

/-- `Activity` from `types.go`. -/
structure Activity where
  id : Nat
  level : Nat
  type : Nat
  text : List Nat
  fields : List LogField
  parent : Nat
deriving DecidableEq, Repr

/-- `ActivityResult` from `types.go`. -/
structure ActivityResult where
  id : Nat
  type : Nat
  fields : List LogField
deriving DecidableEq, Repr

/-- `LogMessage` from `types.go`: what `ProcessStderr` delivers to the
log channel (one variant per delivered tag; the Go struct holds the
union of the per-variant payload fields). -/
inductive LogMessage
  | next (text : List Nat)
  | startActivity (a : Activity)
  | stopActivity (id : Nat)
  | result (r : ActivityResult)
deriving DecidableEq, Repr

/-- `DaemonErrorTrace` from `errors.go`. -/
structure DaemonErrorTrace where
  havePos : Nat
  message : List Nat
deriving DecidableEq, Repr

/-- `DaemonError` from `errors.go`. -/
structure DaemonError where
  type : List Nat
  level : Nat
  name : List Nat
  message : List Nat
  traces : List DaemonErrorTrace
deriving DecidableEq, Repr

/-- The two error kinds an operation can surface (`errors.go`):
a wire-level `ProtocolError` (identified by its operation label) or an
in-band `DaemonError`. -/
inductive DError
  | protocolError (op : String)
  | daemonError (e : DaemonError)
deriving DecidableEq, Repr

/-- Read a word, labelling EOF with the operation name (the
`wire.ReadUint64` + `ProtocolError{Op: ...}` pattern of `client.go`). -/
def rdU64 (op : String) (input : List Nat) : Except String (Nat × List Nat) :=
  match readU64 input with
  | none => .error op
  | some r => .ok r

/-- Read a bounded string, labelling failure with the operation name
(the `wire.ReadString(r, MaxStringSize)` pattern of `client.go`). -/
def rdStr (op : String) (input : List Nat) : Except String (List Nat × List Nat) :=
  match readStr MaxStringSize input with
  | none => .error op
  | some r => .ok r

/-- `readFields` from `client.go`: `count` fields, each a tag word
(`0` int, `1` string) and its payload; any other tag is an error. -/
def readFields : Nat → List Nat → Except String (List LogField × List Nat)
  | 0, input => .ok ([], input)
  | count + 1, input =>
    match readU64 input with
    | none => .error "read field type"
    | some (fieldType, r1) =>
      if fieldType = 0 then
        match readU64 r1 with
        | none => .error "read field int value"
        | some (v, r2) =>
          match readFields count r2 with
          | .error e => .error e
          | .ok (fs, rest) => .ok (.int v :: fs, rest)
      else if fieldType = 1 then
        match readStr MaxStringSize r1 with
        | none => .error "read field string value"
        | some (s, r2) =>
          match readFields count r2 with
          | .error e => .error e
          | .ok (fs, rest) => .ok (.str s :: fs, rest)
      else .error "read field"

/-- `readActivity` from `client.go`. -/
def readActivity (input : List Nat) : Except String (Activity × List Nat) := do
  let (id, r1) ← rdU64 "read activity id" input
  let (level, r2) ← rdU64 "read activity level" r1
  let (actType, r3) ← rdU64 "read activity type" r2
  let (text, r4) ← rdStr "read activity text" r3
  let (nrFields, r5) ← rdU64 "read activity nrFields" r4
  let (fields, r6) ← readFields nrFields r5
  let (parent, r7) ← rdU64 "read activity parent" r6
  return ({ id := id, level := level, type := actType, text := text,
            fields := fields, parent := parent }, r7)

/-- `readActivityResult` from `client.go`. -/
def readActivityResult (input : List Nat) : Except String (ActivityResult × List Nat) := do
  let (id, r1) ← rdU64 "read result id" input
  let (resType, r2) ← rdU64 "read result type" r1
  let (nrFields, r3) ← rdU64 "read result nrFields" r2
  let (fields, r4) ← readFields nrFields r3
  return ({ id := id, type := resType, fields := fields }, r4)

/-- The trace-reading loop of `readDaemonError` in `client.go`:
`nrTraces` entries, each a `havePos` word and a message string. -/
def readTraces : Nat → List Nat → Except String (List DaemonErrorTrace × List Nat)
  | 0, input => .ok ([], input)
  | n + 1, input => do
    let (havePos, r1) ← rdU64 "read trace havePos" input
    let (msg, r2) ← rdStr "read trace message" r1
    let (tl, r3) ← readTraces n r2
    return ({ havePos := havePos, message := msg } :: tl, r3)

/-- `readDaemonError` from `client.go`: type, level, name, message, the
(consumed but unused) `havePos` word, then the trace list. -/
def readDaemonError (input : List Nat) : Except String (DaemonError × List Nat) := do
  let (errType, r1) ← rdStr "read error type" input
  let (level, r2) ← rdU64 "read error level" r1
  let (name, r3) ← rdStr "read error name" r2
  let (message, r4) ← rdStr "read error message" r3
  let (_, r5) ← rdU64 "read error havePos" r4
  let (nrTraces, r6) ← rdU64 "read error nrTraces" r5
  let (traces, r7) ← readTraces nrTraces r6
  return ({ type := errType, level := level, name := name,
            message := message, traces := traces }, r7)

/-- `ProcessStderr` from `client.go`: loop reading one tag word per
iteration; `Last` returns success, `Error` returns the decoded
`DaemonError`, the other six known tags decode their payload and deliver
to the log channel when one is configured (`sink = true` models a
non-nil channel), and any unknown tag is a protocol error.  The returned
list is the sequence of messages delivered to the channel.  `fuel`
bounds the number of iterations; the `ProcessStderr` wrapper supplies
`input.length + 1`, which always suffices because every iteration
consumes at least the 8 tag bytes. -/
def processStderrF : Nat → Bool → List Nat → Except DError (List LogMessage × List Nat)
  | 0, _, _ => .error (.protocolError "read stderr message type")
  | fuel + 1, sink, input =>
    match readU64 input with
    | none => .error (.protocolError "read stderr message type")
    | some (raw, r1) =>
      if raw = LogLast then .ok ([], r1)
      else if raw = LogError then
        match readDaemonError r1 with
        | .error op => .error (.protocolError op)
        | .ok (e, _) => .error (.daemonError e)
      else if raw = LogNext then
        match readStr MaxStringSize r1 with
        | none => .error (.protocolError "read LogNext text")
        | some (text, r2) =>
          match processStderrF fuel sink r2 with
          | .error e => .error e
          | .ok (msgs, rest) =>
            .ok ((if sink then [LogMessage.next text] else []) ++ msgs, rest)
      else if raw = LogStartActivity then
        match readActivity r1 with
        | .error op => .error (.protocolError op)
        | .ok (act, r2) =>
          match processStderrF fuel sink r2 with
          | .error e => .error e
          | .ok (msgs, rest) =>
            .ok ((if sink then [LogMessage.startActivity act] else []) ++ msgs, rest)
      else if raw = LogStopActivity then
        match readU64 r1 with
        | none => .error (.protocolError "read LogStopActivity id")
        | some (id, r2) =>
          match processStderrF fuel sink r2 with
          | .error e => .error e
          | .ok (msgs, rest) =>
            .ok ((if sink then [LogMessage.stopActivity id] else []) ++ msgs, rest)
      else if raw = LogResult then
        match readActivityResult r1 with
        | .error op => .error (.protocolError op)
        | .ok (res, r2) =>
          match processStderrF fuel sink r2 with
          | .error e => .error e
          | .ok (msgs, rest) =>
            .ok ((if sink then [LogMessage.result res] else []) ++ msgs, rest)
      else if raw = LogRead ∨ raw = LogWrite then
        match readU64 r1 with
        | none => .error (.protocolError "read LogRead/LogWrite count")
        | some (_, r2) =>
          match processStderrF fuel sink r2 with
          | .error e => .error e
          | .ok (msgs, rest) => .ok (msgs, rest)
      else .error (.protocolError "process stderr")

/-- `ProcessStderr` entry point: run the dispatcher loop with enough
fuel for any input. -/
def ProcessStderr (sink : Bool) (input : List Nat) :
    Except DError (List LogMessage × List Nat) :=
  processStderrF (input.length + 1) sink input

/-! ### Wire encodings of the stderr stream, for stating round-trips -/

/-- Wire form of one typed field (spec §3: tag word `0` + u64, or tag
word `1` + string). -/
def encodeField : LogField → List Nat
  | .int v => toLE64 0 ++ toLE64 v
  | .str s => toLE64 1 ++ writeStr s

def encodeFields (fs : List LogField) : List Nat :=
  (fs.map encodeField).flatten

/-- One stderr message the daemon may send before the `Last` terminator
(the six non-terminating, non-error variants of spec §3). -/
inductive StderrMsg
  | next (text : List Nat)
  | startActivity (id level typ : Nat) (text : List Nat)
      (fields : List LogField) (parent : Nat)
  | stopActivity (id : Nat)
  | result (id typ : Nat) (fields : List LogField)
  | read (count : Nat)
  | write (count : Nat)
deriving DecidableEq, Repr

/-- Wire form of one stderr message: its tag word followed by its
payload, per the reader in `client.go`. -/
def encodeMsg : StderrMsg → List Nat
  | .next t => toLE64 LogNext ++ writeStr t
  | .startActivity id level typ text fields parent =>
      toLE64 LogStartActivity ++ toLE64 id ++ toLE64 level ++ toLE64 typ ++
      writeStr text ++ toLE64 fields.length ++ encodeFields fields ++ toLE64 parent
  | .stopActivity id => toLE64 LogStopActivity ++ toLE64 id
  | .result id typ fields =>
      toLE64 LogResult ++ toLE64 id ++ toLE64 typ ++
      toLE64 fields.length ++ encodeFields fields
  | .read n => toLE64 LogRead ++ toLE64 n
  | .write n => toLE64 LogWrite ++ toLE64 n

def encodeMsgs (ms : List StderrMsg) : List Nat :=
  (ms.map encodeMsg).flatten

/-- Well-formedness of a field: the payload survives the u64 truncation
and the string-size bound. -/
def LogField.wf : LogField → Bool
  | .int v => decide (v < 2 ^ 64)
  | .str s => decide (s.length ≤ MaxStringSize)

/-- Well-formedness of a message: all words below `2^64` and all strings
within `MaxStringSize`. -/
def StderrMsg.wf : StderrMsg → Bool
  | .next t => decide (t.length ≤ MaxStringSize)
  | .startActivity id level typ text fields parent =>
      decide (id < 2 ^ 64) && decide (level < 2 ^ 64) && decide (typ < 2 ^ 64) &&
      decide (text.length ≤ MaxStringSize) && decide (fields.length < 2 ^ 64) &&
      fields.all LogField.wf && decide (parent < 2 ^ 64)
  | .stopActivity id => decide (id < 2 ^ 64)
  | .result id typ fields =>
      decide (id < 2 ^ 64) && decide (typ < 2 ^ 64) &&
      decide (fields.length < 2 ^ 64) && fields.all LogField.wf
  | .read n => decide (n < 2 ^ 64)
  | .write n => decide (n < 2 ^ 64)

/-- What `ProcessStderr` delivers for one message: the decoded message
for the six delivered variants, nothing for `Read`/`Write`. -/
def deliveredOf : StderrMsg → List LogMessage
  | .next t => [.next t]
  | .startActivity id level typ text fields parent =>
      [.startActivity { id := id, level := level, type := typ, text := text,
                        fields := fields, parent := parent }]
  | .stopActivity id => [.stopActivity id]
  | .result id typ fields => [.result { id := id, type := typ, fields := fields }]
  | .read _ => []
  | .write _ => []

def deliveredAll (ms : List StderrMsg) : List LogMessage :=
  (ms.map deliveredOf).flatten

/-- Wire form of one error trace: `havePos` word then message string. -/
def encodeTrace (t : DaemonErrorTrace) : List Nat :=
  toLE64 t.havePos ++ writeStr t.message

/-- Wire form of a `STDERR_ERROR` body (the input of `readDaemonError`):
type, level, name, message, the top-level `havePos` word (not stored by
the Go decoder, hence a separate argument), trace count, traces. -/
def encodeDaemonError (e : DaemonError) (havePosWord : Nat) : List Nat :=
  writeStr e.type ++ toLE64 e.level ++ writeStr e.name ++ writeStr e.message ++
  toLE64 havePosWord ++ toLE64 e.traces.length ++ (e.traces.map encodeTrace).flatten

def DaemonErrorTrace.wf (t : DaemonErrorTrace) : Bool :=
  decide (t.havePos < 2 ^ 64) && decide (t.message.length ≤ MaxStringSize)

def DaemonError.wf (e : DaemonError) : Bool :=
  decide (e.type.length ≤ MaxStringSize) && decide (e.level < 2 ^ 64) &&
  decide (e.name.length ≤ MaxStringSize) && decide (e.message.length ≤ MaxStringSize) &&
  decide (e.traces.length < 2 ^ 64) && e.traces.all DaemonErrorTrace.wf

@[simp] theorem ok_bind {ε α β : Type} (a : α) (f : α → Except ε β) :
    (Except.ok a : Except ε α) >>= f = f a :=
  rfl

@[simp] theorem error_bind {ε α β : Type} (e : ε) (f : α → Except ε β) :
    (Except.error e : Except ε α) >>= f = Except.error e :=
  rfl

theorem maxStringSize_lt : MaxStringSize < 2 ^ 64 := by
  norm_num [MaxStringSize]

theorem rdU64_toLE64 (op : String) {n : Nat} (h : n < 2 ^ 64) (rest : List Nat) :
    rdU64 op (toLE64 n ++ rest) = .ok (n, rest) := by
  unfold rdU64
  rw [readU64_toLE64_lt h]

theorem rdStr_writeStr (op : String) {s : List Nat} (h : s.length ≤ MaxStringSize)
    (rest : List Nat) :
    rdStr op (writeStr s ++ rest) = .ok (s, rest) := by
  unfold rdStr
  rw [readStr_writeStr h (lt_of_le_of_lt h maxStringSize_lt)]

theorem readFields_encode (fs : List LogField) (h : fs.all LogField.wf = true)
    (rest : List Nat) :
    readFields fs.length (encodeFields fs ++ rest) = .ok (fs, rest) := by
  induction fs with
  | nil => simp [readFields, encodeFields]
  | cons f tl ih =>
    simp only [List.all_cons, Bool.and_eq_true] at h
    have htl := ih h.2
    cases f with
    | int v =>
      have hv : v < 2 ^ 64 := by
        have := h.1
        simp [LogField.wf] at this
        exact this
      simp only [List.length_cons, readFields, encodeFields, List.map_cons,
        List.flatten_cons, encodeField, List.append_assoc]
      rw [readU64_toLE64_lt (by norm_num)]
      dsimp only
      rw [if_pos rfl, readU64_toLE64_lt hv]
      dsimp only
      rw [show (List.map encodeField tl).flatten ++ rest = encodeFields tl ++ rest from rfl,
        htl]
    | str s =>
      have hs : s.length ≤ MaxStringSize := by
        have := h.1
        simp [LogField.wf] at this
        exact this
      simp only [List.length_cons, readFields, encodeFields, List.map_cons,
        List.flatten_cons, encodeField, List.append_assoc]
      rw [readU64_toLE64_lt (by norm_num)]
      dsimp only
      rw [if_neg (by norm_num), if_pos rfl,
        readStr_writeStr hs (lt_of_le_of_lt hs maxStringSize_lt)]
      dsimp only
      rw [show (List.map encodeField tl).flatten ++ rest = encodeFields tl ++ rest from rfl,
        htl]

theorem readActivity_encode (id level typ : Nat) (text : List Nat)
    (fields : List LogField) (parent : Nat)
    (hid : id < 2 ^ 64) (hlevel : level < 2 ^ 64) (htyp : typ < 2 ^ 64)
    (htext : text.length ≤ MaxStringSize) (hflen : fields.length < 2 ^ 64)
    (hfields : fields.all LogField.wf = true) (hparent : parent < 2 ^ 64)
    (rest : List Nat) :
    readActivity (toLE64 id ++ (toLE64 level ++ (toLE64 typ ++ (writeStr text ++
        (toLE64 fields.length ++ (encodeFields fields ++ (toLE64 parent ++ rest))))))) =
      .ok ({ id := id, level := level, type := typ, text := text,
             fields := fields, parent := parent }, rest) := by
  unfold readActivity
  rw [rdU64_toLE64 _ hid]
  simp only [ok_bind]
  rw [rdU64_toLE64 _ hlevel]
  simp only [ok_bind]
  rw [rdU64_toLE64 _ htyp]
  simp only [ok_bind]
  rw [rdStr_writeStr _ htext]
  simp only [ok_bind]
  rw [rdU64_toLE64 _ hflen]
  simp only [ok_bind]
  rw [readFields_encode fields hfields]
  simp only [ok_bind]
  rw [rdU64_toLE64 _ hparent]
  simp only [ok_bind]
  rfl

theorem readActivityResult_encode (id typ : Nat) (fields : List LogField)
    (hid : id < 2 ^ 64) (htyp : typ < 2 ^ 64) (hflen : fields.length < 2 ^ 64)
    (hfields : fields.all LogField.wf = true) (rest : List Nat) :
    readActivityResult (toLE64 id ++ (toLE64 typ ++ (toLE64 fields.length ++
        (encodeFields fields ++ rest)))) =
      .ok ({ id := id, type := typ, fields := fields }, rest) := by
  unfold readActivityResult
  rw [rdU64_toLE64 _ hid]
  simp only [ok_bind]
  rw [rdU64_toLE64 _ htyp]
  simp only [ok_bind]
  rw [rdU64_toLE64 _ hflen]
  simp only [ok_bind]
  rw [readFields_encode fields hfields]
  simp only [ok_bind]
  rfl

theorem readTraces_encode (ts : List DaemonErrorTrace)
    (h : ts.all DaemonErrorTrace.wf = true) (rest : List Nat) :
    readTraces ts.length ((ts.map encodeTrace).flatten ++ rest) = .ok (ts, rest) := by
  induction ts with
  | nil => simp [readTraces]
  | cons t tl ih =>
    simp only [List.all_cons, Bool.and_eq_true] at h
    have hpos : t.havePos < 2 ^ 64 := by
      have := h.1
      simp [DaemonErrorTrace.wf] at this
      exact this.1
    have hmsg : t.message.length ≤ MaxStringSize := by
      have := h.1
      simp [DaemonErrorTrace.wf] at this
      exact this.2
    simp only [List.length_cons, readTraces, List.map_cons, List.flatten_cons,
      encodeTrace, List.append_assoc]
    rw [rdU64_toLE64 _ hpos]
    simp only [ok_bind]
    rw [rdStr_writeStr _ hmsg]
    simp only [ok_bind]
    rw [ih h.2]
    simp only [ok_bind]
    rfl

theorem readDaemonError_encode (e : DaemonError) (hw : e.wf = true)
    (havePos : Nat) (hp : havePos < 2 ^ 64) (rest : List Nat) :
    readDaemonError (encodeDaemonError e havePos ++ rest) = .ok (e, rest) := by
  unfold DaemonError.wf at hw
  simp only [Bool.and_eq_true, decide_eq_true_eq] at hw
  obtain ⟨⟨⟨⟨⟨h1, h2⟩, h3⟩, h4⟩, h5⟩, h6⟩ := hw
  unfold readDaemonError encodeDaemonError
  simp only [List.append_assoc]
  rw [rdStr_writeStr _ h1]
  simp only [ok_bind]
  rw [rdU64_toLE64 _ h2]
  simp only [ok_bind]
  rw [rdStr_writeStr _ h3]
  simp only [ok_bind]
  rw [rdStr_writeStr _ h4]
  simp only [ok_bind]
  rw [rdU64_toLE64 _ hp]
  simp only [ok_bind]
  rw [rdU64_toLE64 _ h5]
  simp only [ok_bind]
  rw [readTraces_encode e.traces h6]
  simp only [ok_bind]
  rfl

theorem processStderrF_step (m : StderrMsg) (hm : m.wf = true) (fuel : Nat)
    (sink : Bool) (rest : List Nat) :
    processStderrF (fuel + 1) sink (encodeMsg m ++ rest) =
      match processStderrF fuel sink rest with
      | .error e => .error e
      | .ok (msgs, r) => .ok ((if sink then deliveredOf m else []) ++ msgs, r) := by
  cases m with
  | next t =>
    have ht : t.length ≤ MaxStringSize := by
      simpa [StderrMsg.wf] using hm
    conv_lhs => unfold processStderrF
    simp only [encodeMsg, List.append_assoc]
    rw [readU64_toLE64_lt (by norm_num [LogNext])]
    dsimp only
    rw [if_neg (by norm_num [LogNext, LogLast]), if_neg (by norm_num [LogNext, LogError]),
      if_pos rfl, readStr_writeStr ht (lt_of_le_of_lt ht maxStringSize_lt)]
    dsimp only [deliveredOf]
  | startActivity id level typ text fields parent =>
    simp only [StderrMsg.wf, Bool.and_eq_true, decide_eq_true_eq] at hm
    obtain ⟨⟨⟨⟨⟨⟨h1, h2⟩, h3⟩, h4⟩, h5⟩, h6⟩, h7⟩ := hm
    conv_lhs => unfold processStderrF
    simp only [encodeMsg, List.append_assoc]
    rw [readU64_toLE64_lt (by norm_num [LogStartActivity])]
    dsimp only
    rw [if_neg (by norm_num [LogStartActivity, LogLast]),
      if_neg (by norm_num [LogStartActivity, LogError]),
      if_neg (by norm_num [LogStartActivity, LogNext]),
      if_pos rfl,
      readActivity_encode id level typ text fields parent h1 h2 h3 h4 h5 h6 h7 rest]
    dsimp only [deliveredOf]
  | stopActivity id =>
    have hid : id < 2 ^ 64 := by
      simpa [StderrMsg.wf] using hm
    conv_lhs => unfold processStderrF
    simp only [encodeMsg, List.append_assoc]
    rw [readU64_toLE64_lt (by norm_num [LogStopActivity])]
    dsimp only
    rw [if_neg (by norm_num [LogStopActivity, LogLast]),
      if_neg (by norm_num [LogStopActivity, LogError]),
      if_neg (by norm_num [LogStopActivity, LogNext]),
      if_neg (by norm_num [LogStopActivity, LogStartActivity]),
      if_pos rfl, readU64_toLE64_lt hid]
    dsimp only [deliveredOf]
  | result id typ fields =>
    simp only [StderrMsg.wf, Bool.and_eq_true, decide_eq_true_eq] at hm
    obtain ⟨⟨⟨h1, h2⟩, h3⟩, h4⟩ := hm
    conv_lhs => unfold processStderrF
    simp only [encodeMsg, List.append_assoc]
    rw [readU64_toLE64_lt (by norm_num [LogResult])]
    dsimp only
    rw [if_neg (by norm_num [LogResult, LogLast]),
      if_neg (by norm_num [LogResult, LogError]),
      if_neg (by norm_num [LogResult, LogNext]),
      if_neg (by norm_num [LogResult, LogStartActivity]),
      if_neg (by norm_num [LogResult, LogStopActivity]),
      if_pos rfl, readActivityResult_encode id typ fields h1 h2 h3 h4 rest]
    dsimp only [deliveredOf]
  | read n =>
    have hn : n < 2 ^ 64 := by
      simpa [StderrMsg.wf] using hm
    conv_lhs => unfold processStderrF
    simp only [encodeMsg, List.append_assoc]
    rw [readU64_toLE64_lt (by norm_num [LogRead])]
    dsimp only
    rw [if_neg (by norm_num [LogRead, LogLast]),
      if_neg (by norm_num [LogRead, LogError]),
      if_neg (by norm_num [LogRead, LogNext]),
      if_neg (by norm_num [LogRead, LogStartActivity]),
      if_neg (by norm_num [LogRead, LogStopActivity]),
      if_neg (by norm_num [LogRead, LogResult]),
      if_pos (Or.inl rfl), readU64_toLE64_lt hn]
    dsimp only [deliveredOf]
    cases processStderrF fuel sink rest with
    | error e => rfl
    | ok pr =>
      obtain ⟨msgs, r⟩ := pr
      simp
  | write n =>
    have hn : n < 2 ^ 64 := by
      simpa [StderrMsg.wf] using hm
    conv_lhs => unfold processStderrF
    simp only [encodeMsg, List.append_assoc]
    rw [readU64_toLE64_lt (by norm_num [LogWrite])]
    dsimp only
    rw [if_neg (by norm_num [LogWrite, LogLast]),
      if_neg (by norm_num [LogWrite, LogError]),
      if_neg (by norm_num [LogWrite, LogNext]),
      if_neg (by norm_num [LogWrite, LogStartActivity]),
      if_neg (by norm_num [LogWrite, LogStopActivity]),
      if_neg (by norm_num [LogWrite, LogResult]),
      if_pos (Or.inr rfl), readU64_toLE64_lt hn]
    dsimp only [deliveredOf]
    cases processStderrF fuel sink rest with
    | error e => rfl
    | ok pr =>
      obtain ⟨msgs, r⟩ := pr
      simp

theorem processStderrF_last (fuel : Nat) (sink : Bool) (rest : List Nat) :
    processStderrF (fuel + 1) sink (toLE64 LogLast ++ rest) = .ok ([], rest) := by
  conv_lhs => unfold processStderrF
  rw [readU64_toLE64_lt (by norm_num [LogLast])]
  dsimp only
  rw [if_pos rfl]

theorem processStderrF_drain (msgs : List StderrMsg)
    (h : ∀ m ∈ msgs, m.wf = true) (sink : Bool) (rest : List Nat) :
    ∀ fuel, msgs.length + 1 ≤ fuel →
      processStderrF fuel sink (encodeMsgs msgs ++ (toLE64 LogLast ++ rest)) =
        .ok ((if sink then deliveredAll msgs else []), rest) := by
  induction msgs with
  | nil =>
    intro fuel hf
    obtain ⟨f, rfl⟩ : ∃ f, fuel = f + 1 := ⟨fuel - 1, by omega⟩
    rw [show encodeMsgs [] = [] from rfl, List.nil_append, processStderrF_last]
    simp [deliveredAll]
  | cons m tl ih =>
    intro fuel hf
    obtain ⟨f, rfl⟩ : ∃ f, fuel = f + 1 := ⟨fuel - 1, by omega⟩
    have hm := h m (List.mem_cons_self m tl)
    have htl := ih (fun x hx => h x (List.mem_cons_of_mem m hx)) f
      (by simp at hf; omega)
    rw [show encodeMsgs (m :: tl) = encodeMsg m ++ encodeMsgs tl from by
      simp [encodeMsgs]]
    rw [List.append_assoc, processStderrF_step m hm f sink _, htl]
    have : deliveredAll (m :: tl) = deliveredOf m ++ deliveredAll tl := by
      simp [deliveredAll]
    rw [this]
    cases sink with
    | false => simp
    | true => simp

theorem encodeMsg_length_pos (m : StderrMsg) : 1 ≤ (encodeMsg m).length := by
  cases m <;> simp [encodeMsg, toLE64]

theorem encodeMsgs_length (msgs : List StderrMsg) :
    msgs.length ≤ (encodeMsgs msgs).length := by
  induction msgs with
  | nil => simp [encodeMsgs]
  | cons m tl ih =>
    have := encodeMsg_length_pos m
    simp only [encodeMsgs, List.map_cons, List.flatten_cons, List.length_append,
      List.length_cons] at *
    omega

theorem processStderrF_unknown {w : Nat} (hw : w < 2 ^ 64)
    (hmem : w ∉ [LogLast, LogError, LogNext, LogRead, LogWrite,
      LogStartActivity, LogStopActivity, LogResult])
    (fuel : Nat) (sink : Bool) (tail : List Nat) :
    processStderrF (fuel + 1) sink (toLE64 w ++ tail) =
      .error (.protocolError "process stderr") := by
  simp only [List.mem_cons, List.not_mem_nil, or_false, not_or] at hmem
  obtain ⟨n1, n2, n3, n4, n5, n6, n7, n8⟩ := hmem
  conv_lhs => unfold processStderrF
  rw [readU64_toLE64_lt hw]
  dsimp only
  rw [if_neg n1, if_neg n2, if_neg n3, if_neg n6, if_neg n7, if_neg n8,
    if_neg (by simp [n4, n5])]

/-- **C4.** Stderr drain (spec §4.5, §8.5; `ProcessStderr` in
`client.go`): for any finite sequence of Next / StartActivity /
StopActivity / Result / Read / Write messages followed by the `Last`
tag, the dispatcher returns success, consumes exactly the bytes of those
messages and the `Last` tag — leaving any following response bytes
untouched — and delivers precisely the non-Read/Write messages, in wire
order, to the log sink (delivering nothing when the sink is nil); and on
any tag word outside the eight known tags it returns a protocol
error. -/
theorem stderr_drain (msgs : List StderrMsg) (h : ∀ m ∈ msgs, m.wf = true)
    (sink : Bool) (rest : List Nat) :
    ProcessStderr sink (encodeMsgs msgs ++ toLE64 LogLast ++ rest) =
      .ok ((if sink then deliveredAll msgs else []), rest)
    ∧ ∀ w, w < 2 ^ 64 →
        w ∉ [LogLast, LogError, LogNext, LogRead, LogWrite,
          LogStartActivity, LogStopActivity, LogResult] →
        ∀ tail, ProcessStderr sink (toLE64 w ++ tail) =
          .error (.protocolError "process stderr") := by
  constructor
  · unfold ProcessStderr
    rw [List.append_assoc]
    apply processStderrF_drain msgs h sink rest
    have h1 := encodeMsgs_length msgs
    simp only [List.length_append]
    omega
  · intro w hw hmem tail
    unfold ProcessStderr
    have : (toLE64 w ++ tail).length + 1 = (tail.length + 8) + 1 := by
      simp [toLE64]
    rw [this]
    exact processStderrF_unknown hw hmem _ sink tail

/-- Witness for C4: a Next line, a StartActivity with one field of each
kind, a Read counter and a Write counter, then `Last`, in front of a
3-byte response body, with a configured sink. -/
theorem stderr_drain_witness :
    (∀ m ∈ [StderrMsg.next (asc "scanning"),
            StderrMsg.startActivity 1 3 105 (asc "building") [.int 7, .str (asc "x")] 0,
            StderrMsg.stopActivity 1,
            StderrMsg.read 5, StderrMsg.write 6], m.wf = true)
    ∧ (ProcessStderr true
        (encodeMsgs [StderrMsg.next (asc "scanning"),
            StderrMsg.startActivity 1 3 105 (asc "building") [.int 7, .str (asc "x")] 0,
            StderrMsg.stopActivity 1,
            StderrMsg.read 5, StderrMsg.write 6] ++ toLE64 LogLast ++ [9, 9, 9]) =
        .ok ((if true then deliveredAll
            [StderrMsg.next (asc "scanning"),
             StderrMsg.startActivity 1 3 105 (asc "building") [.int 7, .str (asc "x")] 0,
             StderrMsg.stopActivity 1,
             StderrMsg.read 5, StderrMsg.write 6] else []), [9, 9, 9])
      ∧ ∀ w, w < 2 ^ 64 →
          w ∉ [LogLast, LogError, LogNext, LogRead, LogWrite,
            LogStartActivity, LogStopActivity, LogResult] →
          ∀ tail, ProcessStderr true (toLE64 w ++ tail) =
            .error (.protocolError "process stderr")) :=
  ⟨by decide, stderr_drain _ (by decide) true [9, 9, 9]⟩

/-- **C6.** Error surfacing (spec §7, §8.6; `readDaemonError` in
`client.go`): a `STDERR_ERROR` message carrying type, level, name,
message, a `havePos` word and a trace list decodes to a `DaemonError`
whose `name` and `message` equal the transmitted strings and whose
traces are exactly the transmitted ones in wire order, each preserving
its `havePos` word and message; the dispatcher surfaces that
`DaemonError` as the operation's error. -/
theorem daemon_error_surfacing (e : DaemonError) (hw : e.wf = true)
    (havePos : Nat) (hp : havePos < 2 ^ 64) (sink : Bool) (rest : List Nat) :
    readDaemonError (encodeDaemonError e havePos ++ rest) = .ok (e, rest)
    ∧ ProcessStderr sink (toLE64 LogError ++ encodeDaemonError e havePos ++ rest) =
        .error (.daemonError e) := by
  refine ⟨readDaemonError_encode e hw havePos hp rest, ?_⟩
  unfold ProcessStderr
  have : (toLE64 LogError ++ (encodeDaemonError e havePos ++ rest)).length + 1 =
      ((encodeDaemonError e havePos ++ rest).length + 8) + 1 := by
    simp [toLE64]
  rw [List.append_assoc, this]
  conv_lhs => unfold processStderrF
  rw [readU64_toLE64_lt (by norm_num [LogError])]
  dsimp only
  rw [if_neg (by norm_num [LogError, LogLast]), if_pos rfl,
    readDaemonError_encode e hw havePos hp rest]

/-- Witness for C6: a concrete error with two traces whose `havePos`
words differ. -/
theorem daemon_error_surfacing_witness :
    (DaemonError.wf
      { type := asc "Error", level := 0, name := asc "X", message := asc "not valid",
        traces := [{ havePos := 0, message := asc "in m" },
                   { havePos := 1, message := asc "at n" }] } = true)
    ∧ (0 : Nat) < 2 ^ 64
    ∧ (readDaemonError (encodeDaemonError
        { type := asc "Error", level := 0, name := asc "X", message := asc "not valid",
          traces := [{ havePos := 0, message := asc "in m" },
                     { havePos := 1, message := asc "at n" }] } 0 ++ [1, 2]) =
        .ok ({ type := asc "Error", level := 0, name := asc "X",
               message := asc "not valid",
               traces := [{ havePos := 0, message := asc "in m" },
                          { havePos := 1, message := asc "at n" }] }, [1, 2])
      ∧ ProcessStderr false (toLE64 LogError ++ encodeDaemonError
          { type := asc "Error", level := 0, name := asc "X", message := asc "not valid",
            traces := [{ havePos := 0, message := asc "in m" },
                       { havePos := 1, message := asc "at n" }] } 0 ++ [1, 2]) =
          .error (.daemonError
            { type := asc "Error", level := 0, name := asc "X",
              message := asc "not valid",
              traces := [{ havePos := 0, message := asc "in m" },
                         { havePos := 1, message := asc "at n" }] })) :=
  ⟨by decide, by decide,
    daemon_error_surfacing _ (by decide) 0 (by decide) false [1, 2]⟩

/-! ## Handshake (`handshake.go`, `types.go`, `client.go`) -/

/-- Protocol constants from `types.go`. -/
def ClientMagic : Nat := 0x6e697863
def ServerMagic : Nat := 0x6478696f
def ProtocolVersion : Nat := 0x0125

/-- `HandshakeInfo` from `handshake.go`. -/
structure HandshakeInfo where
  version : Nat
  daemonNixVersion : List Nat
  trust : Nat
deriving DecidableEq, Repr

/-- The handshake of `handshake.go` (Go name `handshakeWithBufIO`) as a
function of the server-to-client byte stream.  Returns the
`HandshakeInfo`, the bytes the client writes (client magic, negotiated
version, the two false feature flags), and the unread remainder of the
input.  Steps: read and validate the server magic; read the server
version; negotiate `min(serverVersion, ProtocolVersion)` and fail when
that is below `ProtocolVersion`; read the daemon version string and the
trust word.  Note that the function returns immediately after the trust
word: no stderr dispatch happens here, and `newClient` adds none. -/
def handshakeWithBufIo (input : List Nat) :
    Except String (HandshakeInfo × List Nat × List Nat) :=
  match readU64 input with
  | none => .error "handshake read server magic"
  | some (serverMagic, r1) =>
    if serverMagic ≠ ServerMagic then .error "handshake validate server magic"
    else
      match readU64 r1 with
      | none => .error "handshake read server version"
      | some (serverVersion, r2) =>
        let negotiated :=
          if ProtocolVersion < serverVersion then ProtocolVersion else serverVersion
        if negotiated < ProtocolVersion then .error "handshake version negotiation"
        else
          match readStr MaxStringSize r2 with
          | none => .error "handshake read daemon version"
          | some (daemonVersion, r3) =>
            match readU64 r3 with
            | none => .error "handshake read trust level"
            | some (trustRaw, r4) =>
              .ok ({ version := negotiated, daemonNixVersion := daemonVersion,
                     trust := trustRaw },
                toLE64 ClientMagic ++ toLE64 negotiated ++ writeBool false ++
                  writeBool false,
                r4)

/-- `newClient` from `client.go`: wraps the connection in buffered I/O
and performs the handshake; in the byte-stream model this is exactly
`handshakeWithBufIo`.  It runs no stderr dispatch after the handshake. -/
def newClient (input : List Nat) : Except String (HandshakeInfo × List Nat × List Nat) :=
  handshakeWithBufIo input

/-- **C7.** Handshake failure condition and negotiated version (spec
§4.6, §8.8; `handshake.go`): on a server stream carrying a magic word, a
version word, a daemon version string and a trust word, the handshake
fails with a protocol error (producing no `HandshakeInfo`) when the
magic differs from `0x6478696f`, and when
`min(serverVersion, 0x125) < 0x125`; otherwise it succeeds and the
resulting `HandshakeInfo.version` is `min(serverVersion, 0x125)`. -/
theorem handshake_negotiation (magic ver trust : Nat) (dv : List Nat)
    (hm : magic < 2 ^ 64) (hv : ver < 2 ^ 64) (ht : trust < 2 ^ 64)
    (hdv : dv.length ≤ MaxStringSize) (rest : List Nat) :
    (magic ≠ ServerMagic →
      handshakeWithBufIo
          (toLE64 magic ++ (toLE64 ver ++ (writeStr dv ++ (toLE64 trust ++ rest)))) =
        .error "handshake validate server magic")
    ∧ (magic = ServerMagic → min ver ProtocolVersion < ProtocolVersion →
      handshakeWithBufIo
          (toLE64 magic ++ (toLE64 ver ++ (writeStr dv ++ (toLE64 trust ++ rest)))) =
        .error "handshake version negotiation")
    ∧ (magic = ServerMagic → ¬ min ver ProtocolVersion < ProtocolVersion →
      handshakeWithBufIo
          (toLE64 magic ++ (toLE64 ver ++ (writeStr dv ++ (toLE64 trust ++ rest)))) =
        .ok ({ version := min ver ProtocolVersion, daemonNixVersion := dv,
               trust := trust },
          toLE64 ClientMagic ++ toLE64 (min ver ProtocolVersion) ++
            writeBool false ++ writeBool false,
          rest)) := by
  have hneg : (if ProtocolVersion < ver then ProtocolVersion else ver) =
      min ver ProtocolVersion := by
    rcases Nat.lt_or_ge ProtocolVersion ver with h | h
    · rw [if_pos h, Nat.min_eq_right (le_of_lt h)]
    · rw [if_neg (by omega), Nat.min_eq_left h]
  refine ⟨?_, ?_, ?_⟩
  · intro hne
    unfold handshakeWithBufIo
    rw [readU64_toLE64_lt hm]
    dsimp only
    rw [if_pos hne]
  · intro heq hlt
    subst heq
    unfold handshakeWithBufIo
    rw [readU64_toLE64_lt hm]
    dsimp only
    rw [if_neg (by simp), readU64_toLE64_lt hv]
    dsimp only
    rw [hneg, if_pos hlt]
  · intro heq hge
    subst heq
    unfold handshakeWithBufIo
    rw [readU64_toLE64_lt hm]
    dsimp only
    rw [if_neg (by simp), readU64_toLE64_lt hv]
    dsimp only
    rw [hneg, if_neg hge,
      readStr_writeStr hdv (lt_of_le_of_lt hdv maxStringSize_lt)]
    dsimp only
    rw [readU64_toLE64_lt ht]

/-- Witness for C7: a daemon advertising version `0x126` negotiates down
to `0x125` and succeeds. -/
theorem handshake_negotiation_witness :
    ServerMagic < 2 ^ 64 ∧ (0x126 : Nat) < 2 ^ 64 ∧ (1 : Nat) < 2 ^ 64
    ∧ (asc "nix (Nix) 2.24.0").length ≤ MaxStringSize
    ∧ ((ServerMagic ≠ ServerMagic →
        handshakeWithBufIo (toLE64 ServerMagic ++ (toLE64 0x126 ++
          (writeStr (asc "nix (Nix) 2.24.0") ++ (toLE64 1 ++ [5])))) =
          .error "handshake validate server magic")
      ∧ (ServerMagic = ServerMagic → min 0x126 ProtocolVersion < ProtocolVersion →
        handshakeWithBufIo (toLE64 ServerMagic ++ (toLE64 0x126 ++
          (writeStr (asc "nix (Nix) 2.24.0") ++ (toLE64 1 ++ [5])))) =
          .error "handshake version negotiation")
      ∧ (ServerMagic = ServerMagic → ¬ min 0x126 ProtocolVersion < ProtocolVersion →
        handshakeWithBufIo (toLE64 ServerMagic ++ (toLE64 0x126 ++
          (writeStr (asc "nix (Nix) 2.24.0") ++ (toLE64 1 ++ [5])))) =
          .ok ({ version := min 0x126 ProtocolVersion,
                 daemonNixVersion := asc "nix (Nix) 2.24.0", trust := 1 },
            toLE64 ClientMagic ++ toLE64 (min 0x126 ProtocolVersion) ++
              writeBool false ++ writeBool false,
            [5]))) :=
  ⟨by decide, by decide, by decide, by decide,
    handshake_negotiation ServerMagic 0x126 1 (asc "nix (Nix) 2.24.0")
      (by decide) (by decide) (by decide) (by decide) [5]⟩

/-- The byte stream of the C1 scenario: a correct handshake reply
followed by the daemon's post-handshake stderr round, which here is just
the `Last` terminator (this is exactly what the mock daemon of the
client test suite sends after the trust word). -/
def handshakeDemoInput : List Nat :=
  toLE64 ServerMagic ++ toLE64 ProtocolVersion ++
  writeStr (asc "nix (Nix) 2.24.0") ++ toLE64 1 ++ toLE64 LogLast

/-- **C1.** The claim says the handshake runs the stderr dispatcher once
after the trust word, consuming up to and including the `Last`
terminator, before the connection is established.  The code does not:
`handshakeWithBufIO` returns right after the trust word and `newClient`
runs no dispatch, so on the scenario input the client completes the
handshake with the entire stderr round (the `Last` tag bytes) still
unread — the consumed bytes do not end with a drained stderr round. -/
theorem handshake_no_post_drain :
    newClient handshakeDemoInput =
      .ok ({ version := ProtocolVersion,
             daemonNixVersion := asc "nix (Nix) 2.24.0", trust := 1 },
        toLE64 ClientMagic ++ toLE64 ProtocolVersion ++ writeBool false ++
          writeBool false,
        toLE64 LogLast)
    ∧ toLE64 LogLast ≠ [] := by
  constructor
  · rfl
  · decide

/-! ## NAR copier (`narcopier.go`) -/

/-- `maxTokenSize` from `narcopier.go`: bound on small NAR tokens. -/
def maxTokenSize : Nat := 4096

/-- `copyWireToken` from `narcopier.go`: read one wire string (length
word, data, padding), echoing every byte read; fail on truncation or a
length above `maxTokenSize`.  Returns the token's value, the echoed
bytes (exactly the consumed prefix of `src`), and the remainder.  The
padding bytes are copied through without a zero check, as in the Go
code. -/
def copyWireToken (src : List Nat) : Option (List Nat × List Nat × List Nat) :=
  match readU64 src with
  | none => none
  | some (length, r1) =>
    if length > maxTokenSize then none
    else if r1.length < length + paddingLen length then none
    else some (r1.take length,
      src.take (8 + (length + paddingLen length)),
      r1.drop (length + paddingLen length))

/-- `copyWireData` from `narcopier.go`: like `copyWireToken` but without
the size bound, used for file contents.  The Go code copies the payload
with `io.CopyN(dst, src, int64(length))`, which copies nothing when the
length does not fit in a nonnegative `int64`; the `2 ^ 63` test mirrors
that conversion. -/
def copyWireData (src : List Nat) : Option (List Nat × List Nat) :=
  match readU64 src with
  | none => none
  | some (length, r1) =>
    let n := if length < 2 ^ 63 then length else 0
    if r1.length < n + paddingLen length then none
    else some (src.take (8 + (n + paddingLen length)),
      r1.drop (n + paddingLen length))

/-- `copySymlink` from `narcopier.go`: `"target" <str> ")"`, echoing
everything read. -/
def copySymlinkP (src : List Nat) : Option (List Nat × List Nat) :=
  match copyWireToken src with
  | none => none
  | some (tok, out1, r1) =>
    if tok ≠ asc "target" then none
    else
      match copyWireToken r1 with
      | none => none
      | some (_, out2, r2) =>
        match copyWireToken r2 with
        | none => none
        | some (tok3, out3, r3) =>
          if tok3 ≠ asc ")" then none
          else some (out1 ++ out2 ++ out3, r3)

/-- `copyRegular` from `narcopier.go`: loop over `"executable"`
(followed by the empty placeholder string), `"contents"` (followed by
the file data) and the closing `")"`; anything else is an error.  One
unit of `fuel` per loop iteration. -/
def copyRegularP : Nat → List Nat → Option (List Nat × List Nat)
  | 0, _ => none
  | fuel + 1, src =>
    match copyWireToken src with
    | none => none
    | some (tok, out1, r1) =>
      if tok = asc "executable" then
        match copyWireToken r1 with
        | none => none
        | some (_, out2, r2) =>
          match copyRegularP fuel r2 with
          | none => none
          | some (out3, r3) => some (out1 ++ out2 ++ out3, r3)
      else if tok = asc "contents" then
        match copyWireData r1 with
        | none => none
        | some (out2, r2) =>
          match copyRegularP fuel r2 with
          | none => none
          | some (out3, r3) => some (out1 ++ out2 ++ out3, r3)
      else if tok = asc ")" then some (out1, r1)
      else none

mutual

/-- `copyNode` from `narcopier.go`: `"(" "type" <type>` then the typed
body; unknown node types are errors. -/
def copyNodeP : Nat → List Nat → Option (List Nat × List Nat)
  | 0, _ => none
  | fuel + 1, src =>
    match copyWireToken src with
    | none => none
    | some (tok, out1, r1) =>
      if tok ≠ asc "(" then none
      else
        match copyWireToken r1 with
        | none => none
        | some (tok2, out2, r2) =>
          if tok2 ≠ asc "type" then none
          else
            match copyWireToken r2 with
            | none => none
            | some (typeVal, out3, r3) =>
              if typeVal = asc "regular" then
                match copyRegularP fuel r3 with
                | none => none
                | some (out4, r4) => some (out1 ++ out2 ++ out3 ++ out4, r4)
              else if typeVal = asc "directory" then
                match copyDirectoryP fuel r3 with
                | none => none
                | some (out4, r4) => some (out1 ++ out2 ++ out3 ++ out4, r4)
              else if typeVal = asc "symlink" then
                match copySymlinkP r3 with
                | none => none
                | some (out4, r4) => some (out1 ++ out2 ++ out3 ++ out4, r4)
              else none

/-- `copyDirectory` from `narcopier.go`: entries
`"entry" "(" "name" <str> "node" <node> ")"` until the closing `")"`.
One unit of `fuel` per entry and per nested node. -/
def copyDirectoryP : Nat → List Nat → Option (List Nat × List Nat)
  | 0, _ => none
  | fuel + 1, src =>
    match copyWireToken src with
    | none => none
    | some (tok, out1, r1) =>
      if tok = asc ")" then some (out1, r1)
      else if tok ≠ asc "entry" then none
      else
        match copyWireToken r1 with
        | none => none
        | some (tok2, out2, r2) =>
          if tok2 ≠ asc "(" then none
          else
            match copyWireToken r2 with
            | none => none
            | some (tok3, out3, r3) =>
              if tok3 ≠ asc "name" then none
              else
                match copyWireToken r3 with
                | none => none
                | some (_, out4, r4) =>
                  match copyWireToken r4 with
                  | none => none
                  | some (tok5, out5, r5) =>
                    if tok5 ≠ asc "node" then none
                    else
                      match copyNodeP fuel r5 with
                      | none => none
                      | some (out6, r6) =>
                        match copyWireToken r6 with
                        | none => none
                        | some (tok7, out7, r7) =>
                          if tok7 ≠ asc ")" then none
                          else
                            match copyDirectoryP fuel r7 with
                            | none => none
                            | some (out8, r8) =>
                              some (out1 ++ out2 ++ out3 ++ out4 ++ out5 ++
                                out6 ++ out7 ++ out8, r8)

end

/-- `copyNAR` from `narcopier.go`: the `"nix-archive-1"` magic token
followed by one node. -/
def copyNARF (fuel : Nat) (src : List Nat) : Option (List Nat × List Nat) :=
  match copyWireToken src with
  | none => none
  | some (magic, out1, r1) =>
    if magic ≠ asc "nix-archive-1" then none
    else
      match copyNodeP fuel r1 with
      | none => none
      | some (out2, r2) => some (out1 ++ out2, r2)

/-- `copyNAR` entry point: every fuel unit corresponds to at least one
8-byte token, so `src.length + 1` always suffices. -/
def copyNAR (src : List Nat) : Option (List Nat × List Nat) :=
  copyNARF (src.length + 1) src

/-! ### The NAR grammar of spec §4.4, and its wire encoding -/

mutual

/-- A well-formed NAR tree per the grammar of spec §4.4: a regular file
(optional executable marker, optional contents), a symlink, or a
directory of named entries. -/
inductive NarNode
  | regular (executable : Bool) (contents : Option (List Nat))
  | symlink (target : List Nat)
  | directory (entries : NarEntries)

/-- The entry list of a directory node. -/
inductive NarEntries
  | nil
  | cons (name : List Nat) (node : NarNode) (tl : NarEntries)

end

/-- The body of a regular-file node after the `"regular"` type token:
optional `"executable" ""` marker, optional `"contents" <bytes>`, then
the closing parenthesis (grammar of spec §4.4). -/
def encodeRegBody (exec : Bool) (contents : Option (List Nat)) : List Nat :=
  (if exec then writeStr (asc "executable") ++ writeStr (asc "") else []) ++
  ((match contents with
    | some c => writeStr (asc "contents") ++ writeStr c
    | none => []) ++
    writeStr (asc ")"))

mutual

/-- The byte encoding of one node per the grammar of spec §4.4 (every
token a padded wire string). -/
def encodeNode : NarNode → List Nat
  | .regular exec contents =>
      writeStr (asc "(") ++ writeStr (asc "type") ++ writeStr (asc "regular") ++
      encodeRegBody exec contents
  | .symlink t =>
      writeStr (asc "(") ++ writeStr (asc "type") ++ writeStr (asc "symlink") ++
      writeStr (asc "target") ++ writeStr t ++ writeStr (asc ")")
  | .directory entries =>
      writeStr (asc "(") ++ writeStr (asc "type") ++ writeStr (asc "directory") ++
      encodeEntries entries ++ writeStr (asc ")")

def encodeEntries : NarEntries → List Nat
  | .nil => []
  | .cons name node tl =>
      writeStr (asc "entry") ++ writeStr (asc "(") ++ writeStr (asc "name") ++
      writeStr name ++ writeStr (asc "node") ++ encodeNode node ++
      writeStr (asc ")") ++ encodeEntries tl

end

/-- A complete archive: the magic token then one node. -/
def encodeNar (node : NarNode) : List Nat :=
  writeStr (asc "nix-archive-1") ++ encodeNode node

/-- File contents must be representable by the nonnegative `int64`
count that `io.CopyN` uses. -/
def contentsOk : Option (List Nat) → Bool
  | some c => decide (c.length < 2 ^ 63)
  | none => true

mutual

/-- Well-formedness per the claim: every small token (entry names,
symlink targets) at most `maxTokenSize` bytes, file contents
representable by the `int64` count `io.CopyN` uses. -/
def NarNode.wf : NarNode → Bool
  | .regular _ contents => contentsOk contents
  | .symlink t => decide (t.length ≤ maxTokenSize)
  | .directory entries => NarEntries.wf entries

def NarEntries.wf : NarEntries → Bool
  | .nil => true
  | .cons name node tl =>
      decide (name.length ≤ maxTokenSize) && NarNode.wf node && NarEntries.wf tl

end

mutual

/-- Fuel sufficient for `copyNodeP` on the encoding of a node. -/
def needFuel : NarNode → Nat
  | .regular _ _ => 4
  | .symlink _ => 1
  | .directory entries => 1 + needFuelEntries entries

/-- Fuel sufficient for `copyDirectoryP` on the encoding of an entry
list followed by the closing parenthesis. -/
def needFuelEntries : NarEntries → Nat
  | .nil => 1
  | .cons _ node tl => 1 + max (needFuel node) (needFuelEntries tl)

end

theorem writeStr_length (s : List Nat) :
    (writeStr s).length = 8 + (s.length + paddingLen s.length) := by
  simp [writeStr, toLE64]
  omega

theorem copyWireToken_writeStr {t : List Nat} (h : t.length ≤ maxTokenSize)
    (rest : List Nat) :
    copyWireToken (writeStr t ++ rest) = some (t, writeStr t, rest) := by
  have hlt : t.length < 2 ^ 64 := lt_of_le_of_lt h (by norm_num [maxTokenSize])
  have hread : readU64 (writeStr t ++ rest)
      = some (t.length, t ++ (List.replicate (paddingLen t.length) 0 ++ rest)) := by
    conv_lhs => rw [show writeStr t ++ rest
      = toLE64 t.length ++ (t ++ (List.replicate (paddingLen t.length) 0 ++ rest)) from by
        simp [writeStr, List.append_assoc]]
    exact readU64_toLE64_lt hlt _
  unfold copyWireToken
  rw [hread]
  dsimp only
  rw [if_neg (by omega),
    if_neg (by simp only [List.length_append, List.length_replicate]; omega)]
  simp only [Option.some.injEq, Prod.mk.injEq]
  refine ⟨take_append_self _ _, ?_, ?_⟩
  · rw [show 8 + (t.length + paddingLen t.length) = (writeStr t).length from
      (writeStr_length t).symm]
    exact take_append_self _ _
  · rw [show t.length + paddingLen t.length
      = t.length + (List.replicate (paddingLen t.length) (0 : Nat)).length by
        simp, List.drop_append]
    simp

theorem copyWireData_writeStr {c : List Nat} (h : c.length < 2 ^ 63)
    (rest : List Nat) :
    copyWireData (writeStr c ++ rest) = some (writeStr c, rest) := by
  have hlt : c.length < 2 ^ 64 := lt_trans h (by norm_num)
  have hread : readU64 (writeStr c ++ rest)
      = some (c.length, c ++ (List.replicate (paddingLen c.length) 0 ++ rest)) := by
    conv_lhs => rw [show writeStr c ++ rest
      = toLE64 c.length ++ (c ++ (List.replicate (paddingLen c.length) 0 ++ rest)) from by
        simp [writeStr, List.append_assoc]]
    exact readU64_toLE64_lt hlt _
  unfold copyWireData
  rw [hread]
  dsimp only
  rw [if_pos h,
    if_neg (by simp only [List.length_append, List.length_replicate]; omega)]
  simp only [Option.some.injEq, Prod.mk.injEq]
  refine ⟨?_, ?_⟩
  · rw [show 8 + (c.length + paddingLen c.length) = (writeStr c).length from
      (writeStr_length c).symm]
    exact take_append_self _ _
  · rw [show c.length + paddingLen c.length
      = c.length + (List.replicate (paddingLen c.length) (0 : Nat)).length by
        simp, List.drop_append]
    simp

theorem copySymlinkP_spec {t : List Nat} (ht : t.length ≤ maxTokenSize)
    (rest : List Nat) :
    copySymlinkP (writeStr (asc "target") ++ (writeStr t ++ (writeStr (asc ")") ++ rest))) =
      some (writeStr (asc "target") ++ (writeStr t ++ writeStr (asc ")")), rest) := by
  unfold copySymlinkP
  rw [copyWireToken_writeStr (by decide)]
  dsimp only
  rw [if_neg (by decide), copyWireToken_writeStr ht]
  dsimp only
  rw [copyWireToken_writeStr (by decide)]
  dsimp only
  rw [if_neg (by decide)]
  simp [List.append_assoc]

theorem copyRegularP_close (fuel : Nat) (rest : List Nat) :
    copyRegularP (fuel + 1) (writeStr (asc ")") ++ rest) =
      some (writeStr (asc ")"), rest) := by
  conv_lhs => unfold copyRegularP
  rw [copyWireToken_writeStr (by decide)]
  dsimp only
  rw [if_neg (by decide), if_neg (by decide), if_pos rfl]

theorem copyRegularP_exec_step (fuel : Nat) (rest : List Nat) :
    copyRegularP (fuel + 1)
        (writeStr (asc "executable") ++ (writeStr (asc "") ++ rest)) =
      (copyRegularP fuel rest).map
        (fun r => (writeStr (asc "executable") ++ (writeStr (asc "") ++ r.1), r.2)) := by
  conv_lhs => unfold copyRegularP
  rw [copyWireToken_writeStr (by decide)]
  dsimp only
  rw [if_pos rfl, copyWireToken_writeStr (by decide)]
  dsimp only
  cases copyRegularP fuel rest with
  | none => rfl
  | some r => simp [List.append_assoc]

theorem copyRegularP_contents_step {c : List Nat} (hc : c.length < 2 ^ 63)
    (fuel : Nat) (rest : List Nat) :
    copyRegularP (fuel + 1) (writeStr (asc "contents") ++ (writeStr c ++ rest)) =
      (copyRegularP fuel rest).map
        (fun r => (writeStr (asc "contents") ++ (writeStr c ++ r.1), r.2)) := by
  conv_lhs => unfold copyRegularP
  rw [copyWireToken_writeStr (by decide)]
  dsimp only
  rw [if_neg (by decide), if_pos rfl, copyWireData_writeStr hc]
  dsimp only
  cases copyRegularP fuel rest with
  | none => rfl
  | some r => simp [List.append_assoc]

theorem copyRegularP_spec (exec : Bool) (contents : Option (List Nat))
    (hc : contentsOk contents = true) (rest : List Nat) :
    ∀ fuel, 3 ≤ fuel →
      copyRegularP fuel (encodeRegBody exec contents ++ rest) =
        some (encodeRegBody exec contents, rest) := by
  intro fuel hf
  obtain ⟨f, rfl⟩ : ∃ f, fuel = f + 3 := ⟨fuel - 3, by omega⟩
  cases exec with
  | false =>
    cases contents with
    | none =>
      simp only [encodeRegBody, if_neg (show ¬ (false = true) by decide),
        List.nil_append]
      rw [show f + 3 = (f + 2) + 1 by omega, copyRegularP_close]
    | some c =>
      have hcl : c.length < 2 ^ 63 := by simpa [contentsOk] using hc
      simp only [encodeRegBody, if_neg (show ¬ (false = true) by decide),
        List.nil_append, List.append_assoc]
      rw [show f + 3 = (f + 2) + 1 by omega, copyRegularP_contents_step hcl,
        show f + 2 = (f + 1) + 1 by omega, copyRegularP_close]
      rfl
  | true =>
    cases contents with
    | none =>
      simp only [encodeRegBody, if_true, List.nil_append, List.append_assoc]
      rw [show f + 3 = (f + 2) + 1 by omega, copyRegularP_exec_step,
        show f + 2 = (f + 1) + 1 by omega, copyRegularP_close]
      rfl
    | some c =>
      have hcl : c.length < 2 ^ 63 := by simpa [contentsOk] using hc
      simp only [encodeRegBody, if_true, List.append_assoc]
      rw [show f + 3 = (f + 2) + 1 by omega, copyRegularP_exec_step,
        show f + 2 = (f + 1) + 1 by omega, copyRegularP_contents_step hcl,
        show f + 1 = f + 0 + 1 by omega, copyRegularP_close]
      rfl

mutual

theorem copyNodeP_spec (node : NarNode) (hw : NarNode.wf node = true)
    (rest : List Nat) :
    ∀ fuel, needFuel node ≤ fuel →
      copyNodeP fuel (encodeNode node ++ rest) = some (encodeNode node, rest) := by
  intro fuel hf
  cases node with
  | regular exec contents =>
    obtain ⟨f, rfl⟩ : ∃ f, fuel = f + 1 := ⟨fuel - 1, by simp [needFuel] at hf; omega⟩
    have hc := hw
    simp only [NarNode.wf] at hc
    conv_lhs => unfold copyNodeP
    simp only [encodeNode, List.append_assoc]
    rw [copyWireToken_writeStr (by decide)]
    dsimp only
    rw [if_neg (by decide), copyWireToken_writeStr (by decide)]
    dsimp only
    rw [if_neg (by decide), copyWireToken_writeStr (by decide)]
    dsimp only
    rw [if_pos rfl,
      copyRegularP_spec exec contents hc rest f (by simp [needFuel] at hf; omega)]
    all_goals simp [List.append_assoc]
  | symlink t =>
    obtain ⟨f, rfl⟩ : ∃ f, fuel = f + 1 := ⟨fuel - 1, by simp [needFuel] at hf; omega⟩
    have ht : t.length ≤ maxTokenSize := by
      simpa [NarNode.wf] using hw
    conv_lhs => unfold copyNodeP
    simp only [encodeNode, List.append_assoc]
    rw [copyWireToken_writeStr (by decide)]
    dsimp only
    rw [if_neg (by decide), copyWireToken_writeStr (by decide)]
    dsimp only
    rw [if_neg (by decide), copyWireToken_writeStr (by decide)]
    dsimp only
    rw [if_neg (by decide), if_neg (by decide), if_pos rfl, copySymlinkP_spec ht]
    all_goals simp [List.append_assoc]
  | directory entries =>
    obtain ⟨f, rfl⟩ : ∃ f, fuel = f + 1 := ⟨fuel - 1, by simp [needFuel] at hf; omega⟩
    have he : NarEntries.wf entries = true := by
      simpa [NarNode.wf] using hw
    conv_lhs => unfold copyNodeP
    simp only [encodeNode, List.append_assoc]
    rw [copyWireToken_writeStr (by decide)]
    dsimp only
    rw [if_neg (by decide), copyWireToken_writeStr (by decide)]
    dsimp only
    rw [if_neg (by decide), copyWireToken_writeStr (by decide)]
    dsimp only
    rw [if_neg (by decide), if_pos rfl,
      copyDirectoryP_spec entries he rest f (by simp [needFuel] at hf; omega)]
    all_goals simp [List.append_assoc]

theorem copyDirectoryP_spec (es : NarEntries) (hw : NarEntries.wf es = true)
    (rest : List Nat) :
    ∀ fuel, needFuelEntries es ≤ fuel →
      copyDirectoryP fuel (encodeEntries es ++ (writeStr (asc ")") ++ rest)) =
        some (encodeEntries es ++ writeStr (asc ")"), rest) := by
  intro fuel hf
  cases es with
  | nil =>
    obtain ⟨f, rfl⟩ : ∃ f, fuel = f + 1 :=
      ⟨fuel - 1, by simp [needFuelEntries] at hf; omega⟩
    conv_lhs => unfold copyDirectoryP
    simp only [encodeEntries, List.nil_append]
    rw [copyWireToken_writeStr (by decide)]
    dsimp only
    rw [if_pos rfl]
  | cons name node tl =>
    obtain ⟨f, rfl⟩ : ∃ f, fuel = f + 1 :=
      ⟨fuel - 1, by simp [needFuelEntries] at hf; omega⟩
    simp only [NarEntries.wf, Bool.and_eq_true, decide_eq_true_eq] at hw
    obtain ⟨⟨hname, hnode⟩, htl⟩ := hw
    have hfn : needFuel node ≤ f := by
      simp only [needFuelEntries] at hf
      omega
    have hft : needFuelEntries tl ≤ f := by
      simp only [needFuelEntries] at hf
      omega
    conv_lhs => unfold copyDirectoryP
    simp only [encodeEntries, List.append_assoc]
    rw [copyWireToken_writeStr (by decide)]
    dsimp only
    rw [if_neg (by decide), if_neg (by decide), copyWireToken_writeStr (by decide)]
    dsimp only
    rw [if_neg (by decide), copyWireToken_writeStr (by decide)]
    dsimp only
    rw [if_neg (by decide), copyWireToken_writeStr hname]
    dsimp only
    rw [copyWireToken_writeStr (by decide)]
    dsimp only
    rw [if_neg (by decide),
      copyNodeP_spec node hnode
        (writeStr (asc ")") ++ (encodeEntries tl ++ (writeStr (asc ")") ++ rest))) f hfn]
    dsimp only
    rw [copyWireToken_writeStr (by decide)]
    dsimp only
    rw [if_neg (by decide), copyDirectoryP_spec tl htl rest f hft]
    all_goals simp [List.append_assoc]

end

mutual

theorem needFuel_le (node : NarNode) : needFuel node ≤ (encodeNode node).length := by
  cases node with
  | regular exec contents =>
    have h1 : (writeStr (asc "(")).length = 16 := by decide
    simp only [needFuel, encodeNode, List.length_append, h1]
    omega
  | symlink t =>
    have h1 : (writeStr (asc "(")).length = 16 := by decide
    simp only [needFuel, encodeNode, List.length_append, h1]
    omega
  | directory entries =>
    have h1 : (writeStr (asc "(")).length = 16 := by decide
    have h2 := needFuelEntries_le entries
    simp only [needFuel, encodeNode, List.length_append, h1]
    omega

theorem needFuelEntries_le (es : NarEntries) :
    needFuelEntries es ≤ (encodeEntries es).length + 1 := by
  cases es with
  | nil => simp [needFuelEntries, encodeEntries]
  | cons name node tl =>
    have h1 : (writeStr (asc "entry")).length = 16 := by decide
    have h2 := needFuel_le node
    have h3 := needFuelEntries_le tl
    simp only [needFuelEntries, encodeEntries, List.length_append, h1]
    omega

end

/-- **C3.** NAR copy identity (spec §4.4, §8.4; `copyNAR` in
`narcopier.go`): for every well-formed archive of the grammar (every
small token at most 4096 bytes), the copier consumes exactly the bytes
of that one archive from its input — leaving any following bytes
untouched — writes a byte-identical copy of those bytes to its output,
and returns success once the outermost `")"` has been consumed. -/
theorem nar_copy_identity (node : NarNode) (hw : NarNode.wf node = true)
    (rest : List Nat) :
    copyNAR (encodeNar node ++ rest) = some (encodeNar node, rest) := by
  unfold copyNAR copyNARF
  rw [show encodeNar node ++ rest
    = writeStr (asc "nix-archive-1") ++ (encodeNode node ++ rest) from by
      simp [encodeNar, List.append_assoc]]
  rw [copyWireToken_writeStr (by decide)]
  dsimp only
  rw [if_neg (by decide)]
  have hfuel : needFuel node ≤
      (writeStr (asc "nix-archive-1") ++ (encodeNode node ++ rest)).length + 1 := by
    have := needFuel_le node
    simp only [List.length_append]
    omega
  rw [copyNodeP_spec node hw rest _ hfuel]
  dsimp only
  simp [encodeNar, List.append_assoc]

/-- Witness for C3: a regular file with contents `"hello"`, followed by
one extra byte of response data. -/
theorem nar_copy_identity_witness :
    NarNode.wf (NarNode.regular false (some (asc "hello"))) = true
    ∧ copyNAR (encodeNar (NarNode.regular false (some (asc "hello"))) ++ [7]) =
        some (encodeNar (NarNode.regular false (some (asc "hello"))), [7]) :=
  ⟨by decide, nar_copy_identity (NarNode.regular false (some (asc "hello")))
    (by decide) [7]⟩

/-! ## Codec: string-map serialisation (`codec.go`) -/

/-- Go's string `<` (what `sort.Strings` sorts by): strict lexicographic
byte order. -/
def lexLt : List Nat → List Nat → Bool
  | [], [] => false
  | [], _ :: _ => true
  | _ :: _, [] => false
  | a :: as, b :: bs => if a < b then true else if b < a then false else lexLt as bs

/-- The reflexive closure Go's sort uses (`!(b < a)`). -/
def lexLe (a b : List Nat) : Bool :=
  ! lexLt b a

/-- The ordering relation for key sorting. -/
def keyLe (a b : List Nat) : Prop :=
  lexLe a b = true

instance : DecidableRel keyLe := fun a b => by
  unfold keyLe
  infer_instance

theorem lexLt_irrefl (a : List Nat) : lexLt a a = false := by
  induction a with
  | nil => rfl
  | cons x xs ih => simp [lexLt, ih]

theorem lexLt_asymm : ∀ {a b : List Nat}, lexLt a b = true → lexLt b a = false
  | [], [], h => by simp [lexLt] at h
  | [], _ :: _, _ => rfl
  | _ :: _, [], h => by simp [lexLt] at h
  | x :: xs, y :: ys, h => by
    simp only [lexLt] at h ⊢
    rcases Nat.lt_trichotomy x y with hxy | hxy | hxy
    · rw [if_neg (by omega : ¬ y < x), if_pos hxy]
    · subst hxy
      rw [if_neg (by omega : ¬ x < x), if_neg (by omega : ¬ x < x)] at h ⊢
      exact lexLt_asymm h
    · rw [if_neg (by omega : ¬ x < y), if_pos hxy] at h
      exact absurd h (by simp)

theorem lexLt_trans : ∀ {a b c : List Nat},
    lexLt a b = true → lexLt b c = true → lexLt a c = true
  | [], [], _, h, _ => by simp [lexLt] at h
  | [], _ :: _, [], _, h => by simp [lexLt] at h
  | [], _ :: _, _ :: _, _, _ => rfl
  | _ :: _, [], _, h, _ => by simp [lexLt] at h
  | _ :: _, _ :: _, [], _, h => by simp [lexLt] at h
  | x :: xs, y :: ys, z :: zs, h1, h2 => by
    simp only [lexLt] at h1 h2 ⊢
    rcases Nat.lt_trichotomy x y with hxy | hxy | hxy
    · rcases Nat.lt_trichotomy y z with hyz | hyz | hyz
      · rw [if_pos (by omega : x < z)]
      · subst hyz
        rw [if_pos hxy]
      · rw [if_neg (by omega : ¬ y < z), if_pos hyz] at h2
        exact absurd h2 (by simp)
    · subst hxy
      rcases Nat.lt_trichotomy x z with hxz | hxz | hxz
      · rw [if_pos hxz]
      · subst hxz
        rw [if_neg (by omega : ¬ x < x), if_neg (by omega : ¬ x < x)] at h1 h2 ⊢
        exact lexLt_trans h1 h2
      · rw [if_neg (by omega : ¬ x < z), if_pos hxz] at h2
        exact absurd h2 (by simp)
    · rw [if_neg (by omega : ¬ x < y), if_pos hxy] at h1
      exact absurd h1 (by simp)

theorem lexLt_conn : ∀ {a b : List Nat},
    lexLt a b = false → lexLt b a = false → a = b
  | [], [], _, _ => rfl
  | [], _ :: _, h, _ => by simp [lexLt] at h
  | _ :: _, [], _, h => by simp [lexLt] at h
  | x :: xs, y :: ys, h1, h2 => by
    simp only [lexLt] at h1 h2
    rcases Nat.lt_trichotomy x y with hxy | hxy | hxy
    · rw [if_pos hxy] at h1
      exact absurd h1 (by simp)
    · subst hxy
      rw [if_neg (by omega : ¬ x < x), if_neg (by omega : ¬ x < x)] at h1 h2
      rw [lexLt_conn h1 h2]
    · rw [if_pos hxy] at h2
      exact absurd h2 (by simp)

instance : IsTotal (List Nat) keyLe := by
  constructor
  intro a b
  unfold keyLe lexLe
  rcases hba : lexLt b a with _ | _
  · left; simp
  · right
    rw [lexLt_asymm hba]
    simp

instance : IsTrans (List Nat) keyLe := by
  constructor
  intro a b c h1 h2
  unfold keyLe lexLe at h1 h2 ⊢
  simp only [Bool.not_eq_true'] at h1 h2 ⊢
  rcases hca : lexLt c a with _ | _
  · rfl
  · exfalso
    rcases hbc : lexLt b c with _ | _
    · have hcb := lexLt_conn h2 hbc
      rw [hcb, h1] at hca
      exact Bool.false_ne_true hca
    · have hba := lexLt_trans hbc hca
      rw [h1] at hba
      exact Bool.false_ne_true hba

theorem keyLe_ne_lt {a b : List Nat} (h : keyLe a b) (hne : a ≠ b) :
    lexLt a b = true := by
  unfold keyLe lexLe at h
  simp only [Bool.not_eq_true'] at h
  rcases hab : lexLt a b with _ | _
  · exact absurd (lexLt_conn hab h) hne
  · rfl

/-- `goMapIndex m k`: Go map indexing `m[k]` over the association-list
model of the map (keys are distinct in a Go map). -/
def goMapIndex (m : List (List Nat × List Nat)) (k : List Nat) : List Nat :=
  match m with
  | [] => []
  | (k2, v) :: tl => if k2 = k then v else goMapIndex tl k

/-- `WriteStringMap` from `codec.go`: collect the keys, sort them
ascending (`sort.Strings`), then emit the count word followed by each
key/value pair in sorted key order.  The in-memory map is an association
list in arbitrary order. -/
def WriteStringMap (m : List (List Nat × List Nat)) : List Nat :=
  toLE64 m.length ++
  ((List.insertionSort keyLe (m.map Prod.fst)).map
    (fun k => writeStr k ++ writeStr (goMapIndex m k))).flatten

/-- **C5.** Map ordering on write (spec §3, §4.2, §8.2;
`WriteStringMap` in `codec.go`): for every map — any in-memory order of
its (distinct) keys — the serialised form is the count word followed by
the key/value pairs, with the emitted key sequence a permutation of the
map's keys in strictly ascending lexicographic byte order. -/
theorem map_ordering (m : List (List Nat × List Nat))
    (h : (m.map Prod.fst).Nodup) :
    WriteStringMap m = toLE64 m.length ++
      ((List.insertionSort keyLe (m.map Prod.fst)).map
        (fun k => writeStr k ++ writeStr (goMapIndex m k))).flatten
    ∧ (List.insertionSort keyLe (m.map Prod.fst)).Perm (m.map Prod.fst)
    ∧ (List.insertionSort keyLe (m.map Prod.fst)).Pairwise
        (fun a b => lexLt a b = true) := by
  refine ⟨rfl, List.perm_insertionSort keyLe _, ?_⟩
  have hs : (List.insertionSort keyLe (m.map Prod.fst)).Pairwise keyLe :=
    List.sorted_insertionSort keyLe _
  have hn : (List.insertionSort keyLe (m.map Prod.fst)).Nodup :=
    ((List.perm_insertionSort keyLe (m.map Prod.fst)).nodup_iff).mpr h
  exact (hs.and hn).imp (fun hab => keyLe_ne_lt hab.1 hab.2)

/-- Witness for C5: a two-entry map given in descending key order. -/
theorem map_ordering_witness :
    (([(asc "b", asc "2"), (asc "a", asc "1")].map Prod.fst).Nodup)
    ∧ (WriteStringMap [(asc "b", asc "2"), (asc "a", asc "1")] =
        toLE64 ([(asc "b", asc "2"), (asc "a", asc "1")] : List _).length ++
        ((List.insertionSort keyLe
            ([(asc "b", asc "2"), (asc "a", asc "1")].map Prod.fst)).map
          (fun k => writeStr k ++
            writeStr (goMapIndex [(asc "b", asc "2"), (asc "a", asc "1")] k))).flatten
      ∧ (List.insertionSort keyLe
          ([(asc "b", asc "2"), (asc "a", asc "1")].map Prod.fst)).Perm
          ([(asc "b", asc "2"), (asc "a", asc "1")].map Prod.fst)
      ∧ (List.insertionSort keyLe
          ([(asc "b", asc "2"), (asc "a", asc "1")].map Prod.fst)).Pairwise
          (fun a b => lexLt a b = true)) :=
  ⟨by decide, map_ordering [(asc "b", asc "2"), (asc "a", asc "1")] (by decide)⟩

/-! ## QueryPathInfo (`client.go`, `codec.go`) -/

/-- `PathInfo` from `types.go`/`codec.go` (the wire-exact field set
handled by `ReadPathInfo`; `storePath` is supplied by the caller). -/
structure PathInfo where
  storePath : List Nat
  deriver : List Nat
  narHash : List Nat
  references : List (List Nat)
  registrationTime : Nat
  narSize : Nat
  ultimate : Bool
  sigs : List (List Nat)
  ca : List Nat
deriving DecidableEq, Repr

/-- Read a bool, labelling EOF with the operation name. -/
def rdBool (op : String) (input : List Nat) : Except String (Bool × List Nat) :=
  match readBool input with
  | none => .error op
  | some r => .ok r

/-- The entry-reading loop of `ReadStrings` in `codec.go`. -/
def readStringsLoop (max : Nat) : Nat → List Nat → Except String (List (List Nat) × List Nat)
  | 0, input => .ok ([], input)
  | n + 1, input =>
    match readStr max input with
    | none => .error "read string list entry"
    | some (s, r) =>
      match readStringsLoop max n r with
      | .error e => .error e
      | .ok (ss, rest) => .ok (s :: ss, rest)

/-- `ReadStrings` from `codec.go`: count word then that many strings. -/
def ReadStrings (max : Nat) (input : List Nat) :
    Except String (List (List Nat) × List Nat) :=
  match readU64 input with
  | none => .error "read string list count"
  | some (count, r1) => readStringsLoop max count r1

/-- `ReadPathInfo` from `codec.go` (`UnkeyedValidPathInfo` wire format):
deriver, narHash, references, registrationTime, narSize, ultimate,
sigs, contentAddress. -/
def ReadPathInfo (storePath : List Nat) (input : List Nat) :
    Except String (PathInfo × List Nat) := do
  let (deriver, r1) ← rdStr "read path info deriver" input
  let (narHash, r2) ← rdStr "read path info narHash" r1
  let (references, r3) ← ReadStrings MaxStringSize r2
  let (registrationTime, r4) ← rdU64 "read path info registrationTime" r3
  let (narSize, r5) ← rdU64 "read path info narSize" r4
  let (ultimate, r6) ← rdBool "read path info ultimate" r5
  let (sigs, r7) ← ReadStrings MaxStringSize r6
  let (ca, r8) ← rdStr "read path info contentAddress" r7
  return ({ storePath := storePath, deriver := deriver, narHash := narHash,
            references := references, registrationTime := registrationTime,
            narSize := narSize, ultimate := ultimate, sigs := sigs, ca := ca }, r8)

/-- The response decoder of `QueryPathInfo` in `client.go`: a present
bool; when absent the result is `none` with no error and nothing more is
read, and only when present is a `PathInfo` body decoded. -/
def queryPathInfoReadResp (path : List Nat) (input : List Nat) :
    Except String (Option PathInfo × List Nat) :=
  match readBool input with
  | none => .error "read path info present bool"
  | some (found, r1) =>
    if found then
      match ReadPathInfo path r1 with
      | .error e => .error e
      | .ok (info, r2) => .ok (some info, r2)
    else .ok (none, r1)

/-- The response phase of `QueryPathInfo` run through `doOp` steps 5–6
of `client.go`: drain stderr until `Last`, then decode the response
(read-response failures become protocol errors). -/
def queryPathInfoOp (path : List Nat) (sink : Bool) (respStream : List Nat) :
    Except DError (Option PathInfo × List Nat) :=
  match ProcessStderr sink respStream with
  | .error e => .error e
  | .ok (_, r1) =>
    match queryPathInfoReadResp path r1 with
    | .error op => .error (.protocolError op)
    | .ok r => .ok r

/-- **C8.** QueryPathInfo on a missing path (spec §4.8; `client.go`):
when, after the stderr round's `Last` terminator, the daemon sends the
present-word `0`, the call succeeds with an absent result (`none`),
consuming only the present word; a `PathInfo` body is decoded only when
the present word is nonzero. -/
theorem query_path_info_missing (path : List Nat) (msgs : List StderrMsg)
    (hm : ∀ m ∈ msgs, m.wf = true) (sink : Bool) (rest : List Nat) :
    queryPathInfoOp path sink
        (encodeMsgs msgs ++ toLE64 LogLast ++ (toLE64 0 ++ rest)) =
      .ok (none, rest)
    ∧ ∀ w, w ≠ 0 → w < 2 ^ 64 → ∀ tail,
        queryPathInfoReadResp path (toLE64 w ++ tail) =
          (match ReadPathInfo path tail with
           | .error e => .error e
           | .ok (info, r2) => .ok (some info, r2)) := by
  constructor
  · unfold queryPathInfoOp
    have hdrain := (stderr_drain msgs hm sink (toLE64 0 ++ rest)).1
    rw [show encodeMsgs msgs ++ toLE64 LogLast ++ (toLE64 0 ++ rest)
      = encodeMsgs msgs ++ toLE64 LogLast ++ toLE64 0 ++ rest by
        simp [List.append_assoc], show encodeMsgs msgs ++ toLE64 LogLast ++ toLE64 0 ++ rest
      = encodeMsgs msgs ++ toLE64 LogLast ++ (toLE64 0 ++ rest) by
        simp [List.append_assoc], hdrain]
    dsimp only
    unfold queryPathInfoReadResp readBool
    rw [readU64_toLE64_lt (by norm_num)]
    dsimp only
    rw [if_neg (by simp)]
  · intro w hw hlt tail
    unfold queryPathInfoReadResp readBool
    rw [readU64_toLE64_lt hlt]
    dsimp only
    rw [if_pos (by simp [hw])]

/-- Witness for C8: an empty stderr round, then the present-word `0`,
then two bytes of unrelated data. -/
theorem query_path_info_missing_witness :
    (∀ m ∈ ([] : List StderrMsg), m.wf = true)
    ∧ (queryPathInfoOp (asc "/nix/store/abc") false
        (encodeMsgs [] ++ toLE64 LogLast ++ (toLE64 0 ++ [4, 5])) =
        .ok (none, [4, 5])
      ∧ ∀ w, w ≠ 0 → w < 2 ^ 64 → ∀ tail,
          queryPathInfoReadResp (asc "/nix/store/abc") (toLE64 w ++ tail) =
            (match ReadPathInfo (asc "/nix/store/abc") tail with
             | .error e => .error e
             | .ok (info, r2) => .ok (some info, r2))) :=
  ⟨by decide, query_path_info_missing (asc "/nix/store/abc") [] (by decide) false [4, 5]⟩

/-! ## Lock discipline (`client.go`, `part_003` `OpWriter`, `response.go`)

The connection mutex is modelled by a held flag plus the trace of
acquire/release events; each Go function is projected onto the lock
operations it performs on each control path, with one boolean outcome
per fallible wire step. -/

inductive LockEvent
  | acquire
  | release
deriving DecidableEq, Repr

/-- The mutex state and its event history. -/
structure MuSt where
  held : Bool
  trace : List LockEvent
deriving DecidableEq, Repr

/-- `c.mu.Lock()` (via `lockForCtx`). -/
def muLock (s : MuSt) : MuSt :=
  { held := true, trace := s.trace ++ [.acquire] }

/-- `c.mu.Unlock()` (via `release`). -/
def muUnlock (s : MuSt) : MuSt :=
  { held := false, trace := s.trace ++ [.release] }

/-- Outcomes of the fallible steps of a simple operation. -/
structure OpOutcome where
  ctxDone : Bool
  writeOpOk : Bool
  writeReqOk : Bool
  flushOk : Bool
  stderrOk : Bool
  readRespOk : Bool

/-- `doOp` from `client.go`: a cancelled context returns before locking;
otherwise the mutex is acquired, the body runs (op code, request, flush,
stderr drain, response read — any failure exits early), and the deferred
`release` unlocks on every exit path. -/
def doOp (o : OpOutcome) (s : MuSt) : MuSt :=
  if o.ctxDone then s
  else
    let s1 := muLock s
    -- body: each failing step returns early; the deferred release runs
    -- at every exit, success or failure
    muUnlock s1

/-- `Do` from `client.go`: on any failing step the lock is released and
an error returned (`none`); on success an `OpResponse` is handed to the
caller with the lock still held (`some`). -/
def clientDo (o : OpOutcome) (s : MuSt) : Option Unit × MuSt :=
  if o.ctxDone then (none, s)
  else
    let s1 := muLock s
    if ¬ o.writeOpOk then (none, muUnlock s1)
    else if ¬ o.writeReqOk then (none, muUnlock s1)
    else if ¬ o.flushOk then (none, muUnlock s1)
    else if ¬ o.stderrOk then (none, muUnlock s1)
    else (some (), s1)

/-- `OpResponse.Close` from `response.go`: releases the mutex exactly
once (`sync.Once`); closing an already-closed response does nothing. -/
def opResponseClose (closedOnce : Bool) (s : MuSt) : Bool × MuSt :=
  if closedOnce then (true, s) else (true, muUnlock s)

/-- `DoStreaming` from `client.go`: lock and write the op code; on
failure release and error, on success return an `OpWriter` (lock
held). -/
def doStreaming (ctxDone writeOpOk : Bool) (s : MuSt) : Bool × MuSt :=
  if ctxDone then (false, s)
  else
    let s1 := muLock s
    if ¬ writeOpOk then (false, muUnlock s1)
    else (true, s1)

/-- The `done` flag of an `OpWriter` (`part_003`). -/
structure OpWriterSt where
  done : Bool

/-- `OpWriter.CloseRequest` from `part_003`: an already-done writer
errors without touching the lock; a flush or stderr failure releases;
success hands out an `OpResponse` with the lock held. -/
def opWriterCloseRequest (flushOk stderrOk : Bool) (w : OpWriterSt) (s : MuSt) :
    Bool × OpWriterSt × MuSt :=
  if w.done then (false, w, s)
  else if ¬ flushOk then (false, { done := true }, muUnlock s)
  else if ¬ stderrOk then (false, { done := true }, muUnlock s)
  else (true, { done := true }, s)

/-- `OpWriter.Abort` from `part_003`: releases unless the request was
already completed or aborted. -/
def opWriterAbort (w : OpWriterSt) (s : MuSt) : OpWriterSt × MuSt :=
  if ¬ w.done then ({ done := true }, muUnlock s) else (w, s)

/-- A complete simple operation through `Do`: the caller closes the
returned response (the Go callers use `defer resp.Close()`). -/
def simpleOpTrace (o : OpOutcome) : MuSt :=
  match clientDo o { held := false, trace := [] } with
  | (none, s) => s
  | (some _, s) => (opResponseClose false s).2

/-- A complete streaming operation through `DoStreaming` (the
`AddToStoreNar` / `AddBuildLog` / `AddMultipleToStore` shape): on a
mid-request caller failure `Abort` runs; otherwise `CloseRequest`
either fails (releasing internally) or yields a response that the caller
closes. -/
def streamingOpTrace (ctxDone writeOpOk abortMidway flushOk stderrOk : Bool) : MuSt :=
  match doStreaming ctxDone writeOpOk { held := false, trace := [] } with
  | (false, s) => s
  | (true, s) =>
    if abortMidway then (opWriterAbort { done := false } s).2
    else
      match opWriterCloseRequest flushOk stderrOk { done := false } s with
      | (false, _, s2) => s2
      | (true, _, s2) => (opResponseClose false s2).2

/-- **C9.** Lock discipline (spec §4.7, §8.7; `doOp`/`Do`/`DoStreaming`
in `client.go`, `OpWriter` in `part_003`, `OpResponse.Close` in
`response.go`): starting unlocked, every complete simple operation ends
unlocked having either never touched the mutex (cancelled before entry)
or acquired and released it exactly once, in that order; every streaming
operation — through `Abort`, a failing `CloseRequest`, or closing the
returned response — does the same; and closing an already-closed
response performs no further release. -/
theorem lock_discipline :
    (∀ o : OpOutcome, (doOp o { held := false, trace := [] }).held = false ∧
      ((doOp o { held := false, trace := [] }).trace = [] ∨
        (doOp o { held := false, trace := [] }).trace = [.acquire, .release]))
    ∧ (∀ o : OpOutcome, (simpleOpTrace o).held = false ∧
        ((simpleOpTrace o).trace = [] ∨
          (simpleOpTrace o).trace = [.acquire, .release]))
    ∧ (∀ ctxDone writeOpOk abortMidway flushOk stderrOk : Bool,
        (streamingOpTrace ctxDone writeOpOk abortMidway flushOk stderrOk).held = false ∧
        ((streamingOpTrace ctxDone writeOpOk abortMidway flushOk stderrOk).trace = [] ∨
          (streamingOpTrace ctxDone writeOpOk abortMidway flushOk stderrOk).trace =
            [.acquire, .release]))
    ∧ (∀ s : MuSt, opResponseClose true s = (true, s)) := by
  refine ⟨?_, ?_, ?_, ?_⟩
  · rintro ⟨c, w1, w2, w3, w4, w5⟩
    cases c <;> simp [doOp, muLock, muUnlock]
  · rintro ⟨c, w1, w2, w3, w4, w5⟩
    cases c <;> cases w1 <;> cases w2 <;> cases w3 <;> cases w4 <;> cases w5 <;>
      simp [simpleOpTrace, clientDo, opResponseClose, muLock, muUnlock]
  · intro c w a f st
    cases c <;> cases w <;> cases a <;> cases f <;> cases st <;>
      simp [streamingOpTrace, doStreaming, opWriterAbort, opWriterCloseRequest,
        opResponseClose, muLock, muUnlock]
  · intro s
    rfl

end GoNixDaemon
